import Mathlib

/-!
Shallow embedding of the two core utilities of the repository:

* `DataPartitioner` (date-partitioned parquet writer), from
  src/follow-up/instructions/test.py
* the SCD Type 2 reconciler `apply_scd_type2_logic`, from
  src/follow-up/instructions/test2.py

Modelling conventions:

* A cell value is `Option Val`: `none` stands for the pandas null family
  (NaN / NaT / None).  `Val` covers the scalar types the scripts use
  (integers, strings, booleans, day-granularity datetimes).
* A row is an association list from column name to cell, with
  dict-style unique keys (rows come from `pandas` frames and
  `Series.to_dict`, whose keys are unique).
* A dataframe carries an explicit column list and a row list, so that a
  frame with zero rows but named columns is distinguishable from a frame
  that has no columns at all (pandas `DataFrame.empty` is true when either
  axis has length 0, and column lookup on a missing column differs from
  lookup in an empty column).
* The filesystem seen by the partitioner is explicit state: a store maps a
  partition-directory key (the date, at day granularity, which determines
  the year=Y/month=MM/day=DD path bijectively) to the list of files written
  in it, each file being the list of rows it holds.  State is threaded
  explicitly; the dataframe returned by `partition_data` is the state of
  the caller-supplied frame after the call (the Python code assigns the
  coerced date column into its argument in place).
* `pandas.to_datetime` string parsing and `DataFrame.memory_usage` byte
  accounting live in the pandas library, outside this repository; they
  enter the embedding as explicit function parameters (`parseDate`,
  `memBytes`).  Python float arithmetic in the chunk-size estimate
  `int(maxFileSizeMb * 1024 * 1024 / (total / n))` is modelled by the
  exact rational floor, which is the natural-number division
  `(maxFileSizeMb * 1024 * 1024 * n) / total`.
* Python exceptions are modelled with `Except` and a small error datatype
  in place of the exception messages.
-/

namespace Workshop

/-- Scalar values appearing in cells of the tabular data. -/
inductive Val : Type
  | vInt : Int → Val
  | vStr : String → Val
  | vBool : Bool → Val
  | vDate : Nat → Val
deriving DecidableEq, Repr

/-- A cell: `none` is the pandas null family (NaN / NaT / None). -/
abbrev Cell : Type := Option Val

/-- A row: association list from column name to cell, unique keys. -/
abbrev Row : Type := List (String × Cell)

/-- Column lookup in a row; `none` when the column is absent
(`column in series.index` false). -/
def getCell : Row → String → Option Cell
  | [], _ => none
  | p :: r, c => if p.1 = c then some p.2 else getCell r c

/-- Column assignment in a row (dict assignment semantics: replace the
existing entry, else append a new one). -/
def setCell : Row → String → Cell → Row
  | [], c, v => [(c, v)]
  | p :: r, c, v => if p.1 = c then (c, v) :: r else p :: setCell r c v

/-- A tabular dataset: ordered column names plus ordered rows. -/
structure DF : Type where
  cols : List String
  rows : List Row
deriving DecidableEq, Repr

/-- pandas `DataFrame.empty`: true when either axis has length zero. -/
def DF.isEmptyFrame (df : DF) : Bool :=
  df.rows.isEmpty || df.cols.isEmpty

/-- Errors raised by the partitioner (`ValueError` / `FileNotFoundError`
messages of test.py, as a datatype). -/
inductive PErr : Type
  | unsupportedCompression
  | nonPositiveMaxFileSize
  | dateColumnNotFound
  | unparseableDate
  | rangeStepZero
  | partitionNotFound
  | noParquetFiles
deriving DecidableEq, Repr

/-- `Except.isOk` specialised, to keep statements readable. -/
def isErr {ε α : Type} : Except ε α → Bool
  | .error _ => true
  | .ok _ => false

/-- test.py line 16: `SUPPORTED_COMPRESSIONS = ['snappy', 'gzip', 'brotli', 'lz4', None]`. -/
def SUPPORTED_COMPRESSIONS : List (Option String) :=
  [some "snappy", some "gzip", some "brotli", some "lz4", none]

/-- Python `x or d` for an optional integer argument: `None` and `0` are
falsy and give the default. -/
def pyOrInt (x : Option Int) (d : Int) : Int :=
  match x with
  | none => d
  | some v => if v = 0 then d else v

/-- Python `x or d` for an optional string argument: `None` and the empty
string are falsy and give the default. -/
def pyOrStr (x : Option String) (d : String) : Option String :=
  match x with
  | none => some d
  | some s => if s = "" then some d else some s

/-- Configuration state of a constructed `DataPartitioner` (the output
directory is abstracted away: partition directories are addressed by their
date key in the store). -/
structure DataPartitioner : Type where
  maxFileSizeMb : Int
  compressionType : Option String
  dateColumn : String
deriving DecidableEq, Repr

/-- test.py lines 20-50: `DataPartitioner.__init__` together with
`_validate_configuration`.  The `or`-defaulting of lines 35-36 happens
before validation. -/
def mkDataPartitioner (maxFileSizeMb : Option Int) (compressionType : Option String)
    (dateColumn : String) : Except PErr DataPartitioner :=
  let m : Int := pyOrInt maxFileSizeMb 100
  let c : Option String := pyOrStr compressionType "snappy"
  if c ∉ SUPPORTED_COMPRESSIONS then .error .unsupportedCompression
  else if m ≤ 0 then .error .nonPositiveMaxFileSize
  else .ok ⟨m, c, dateColumn⟩

/-- `pd.to_datetime` on one cell, day granularity.  String parsing is the
abstract `parseDate` (pandas library behaviour); nulls stay null (NaT);
datetimes pass through; integers convert numerically; booleans raise. -/
def toDatetime (parseDate : String → Option Nat) : Cell → Except PErr Cell
  | none => .ok none
  | some (Val.vDate n) => .ok (some (Val.vDate n))
  | some (Val.vStr s) =>
    match parseDate s with
    | some n => .ok (some (Val.vDate n))
    | none => .error .unparseableDate
  | some (Val.vInt i) => .ok (some (Val.vDate i.toNat))
  | some (Val.vBool _) => .error .unparseableDate

/-- test.py line 119: `dataframe[dateColumn] = pd.to_datetime(dataframe[dateColumn])`,
cell by cell.  The assignment mutates the caller object; the returned row
list is the state of those rows after the call. -/
def coerceDateColumn (parseDate : String → Option Nat) (dc : String) :
    List Row → Except PErr (List Row)
  | [] => .ok []
  | r :: rest => do
    let c ← toDatetime parseDate ((getCell r dc).getD none)
    let rest' ← coerceDateColumn parseDate dc rest
    pure (setCell r dc c :: rest')

/-- The `groupby(dataframe[dateColumn].dt.date)` key of a row: the day value
of a datetime cell, `none` for null or non-datetime cells (pandas silently
drops rows whose group key is null). -/
def dateKeyOf (dc : String) (r : Row) : Option Nat :=
  match getCell r dc with
  | some (some (Val.vDate n)) => some n
  | _ => none

/-- Insert into a sorted list, keeping earlier-inserted equal elements
after the new one is placed behind them (stable insertion). -/
def insertSorted {α : Type} (le : α → α → Bool) (a : α) : List α → List α
  | [] => [a]
  | b :: l => if le a b then a :: b :: l else b :: insertSorted le a l

/-- Stable insertion sort.  This models the sorting done by pandas
(`groupby` key order, `sort_values`); the relative order of ties is not
guaranteed by the source (quicksort), so any definable sort is a faithful
model for the order-insensitive properties proved here. -/
def sortBy {α : Type} (le : α → α → Bool) (l : List α) : List α :=
  l.foldr (insertSorted le) []

/-- The distinct (sorted, as pandas groupby sorts group keys) non-null date
keys occurring in a row list. -/
def distinctDateKeys (dc : String) (rows : List Row) : List Nat :=
  sortBy (fun a b => decide (a ≤ b)) ((rows.filterMap (dateKeyOf dc)).dedup)

/-- Contents of one written parquet file, as the rows it holds. -/
abbrev FileData : Type := List Row

/-- The filesystem under the output root: partition-directory key ↦ files
present in that directory. A key being present means the directory exists. -/
abbrev Store : Type := List (Nat × List FileData)

/-- Whether the partition directory for a date key exists. -/
def dirExists (st : Store) (k : Nat) : Bool :=
  (st.find? (fun p => p.1 = k)).isSome

/-- The files currently inside a partition directory (empty when the
directory does not exist). -/
def filesAt (st : Store) (k : Nat) : List FileData :=
  ((st.find? (fun p => p.1 = k)).map Prod.snd).getD []

/-- `partition_path.mkdir(parents=True, exist_ok=True)` (test.py line 80):
create the directory if absent. Performed by `_get_partition_path`, hence
by every read as well. -/
def mkdirP (st : Store) (k : Nat) : Store :=
  if dirExists st k then st else st ++ [(k, [])]

/-- Write one file into an (existing) partition directory. -/
def addFile (st : Store) (k : Nat) (f : FileData) : Store :=
  st.map (fun p => if p.1 = k then (p.1, p.2 ++ [f]) else p)

/-- test.py line 167: `int((maxFileSizeMb * 1024 * 1024) / estimatedRowSize)`
with `estimatedRowSize = totalMemBytes / n`; the exact rational floor is
the natural division below. -/
def approximateRowsPerChunk (maxFileSizeMb : Int) (totalMemBytes n : Nat) : Nat :=
  (maxFileSizeMb.toNat * 1024 * 1024 * n) / totalMemBytes

/-- The consecutive slices `data.iloc[i : i + r]` of the loop
`for i in range(0, len(data), r)` (test.py lines 173-174): the i-th chunk
is `data[i*r : i*r + r]` and there are `ceil(len / r)` of them.  Empty for
step `r = 0` (Python raises instead; the caller returns that error before
ever building chunks). -/
def chunkList {α : Type} (r : Nat) (l : List α) : List (List α) :=
  (List.range ((l.length + r - 1) / r)).map (fun i => (l.drop (i * r)).take r)

/-- test.py lines 151-202: `_write_partition_data`.  Returns the list of
files written for one partition group.  When the estimated rows-per-chunk
is zero and splitting is attempted, Python `range(0, n, 0)` raises
`ValueError`, modelled as the `rangeStepZero` error. -/
def writePartitionData (maxFileSizeMb : Int) (memBytes : List Row → Nat)
    (pdata : List Row) : Except PErr (List FileData) :=
  let n := pdata.length
  let approx := approximateRowsPerChunk maxFileSizeMb (memBytes pdata) n
  if approx < n then
    if approx = 0 then .error .rangeStepZero
    else .ok (chunkList approx pdata)
  else .ok [pdata]

/-- One entry of `partitionStats.partitionDetails` (test.py lines 139-144);
the path is determined by the date key and omitted. -/
structure PartitionDetail : Type where
  date : Nat
  rowCount : Nat
  fileCount : Nat
deriving DecidableEq, Repr

/-- The statistics dictionary returned by `partition_data`. -/
structure PartitionStats : Type where
  totalPartitions : Nat
  totalFiles : Nat
  totalRows : Nat
  partitionDetails : List PartitionDetail
deriving DecidableEq, Repr

/-- The per-group loop of `partition_data` (test.py lines 131-144), one
recursive call per group key: compute the partition path (creating the
directory), write the group as files, accumulate statistics. -/
def partitionLoop (maxFileSizeMb : Int) (memBytes : List Row → Nat) (dc : String)
    (rows : List Row) : List Nat → PartitionStats × Store →
    Except PErr (PartitionStats × Store)
  | [], acc => .ok acc
  | k :: ks, (stats, st) => do
    let grp := rows.filter (fun r => dateKeyOf dc r = some k)
    let st1 := mkdirP st k
    let files ← writePartitionData maxFileSizeMb memBytes grp
    let st2 := files.foldl (fun s f => addFile s k f) st1
    partitionLoop maxFileSizeMb memBytes dc rows ks
      (⟨stats.totalPartitions + 1, stats.totalFiles + files.length,
        stats.totalRows, stats.partitionDetails ++ [⟨k, grp.length, files.length⟩]⟩, st2)

/-- test.py lines 105-149: `DataPartitioner.partition_data`.  The returned
dataframe is the caller frame after the in-place date-column coercion. -/
def partition_data (P : DataPartitioner) (parseDate : String → Option Nat)
    (memBytes : List Row → Nat) (df : DF) (st : Store) :
    Except PErr (DF × PartitionStats × Store) := do
  if P.dateColumn ∉ df.cols then throw .dateColumnNotFound
  let rows ← coerceDateColumn parseDate P.dateColumn df.rows
  let keys := distinctDateKeys P.dateColumn rows
  let (stats, st') ← partitionLoop P.maxFileSizeMb memBytes P.dateColumn rows keys
    (⟨0, 0, rows.length, []⟩, st)
  pure (⟨df.cols, rows⟩, stats, st')

/-- test.py lines 204-232: `DataPartitioner.read_partition`.  Note that
`_get_partition_path` creates the directory before the existence test. -/
def read_partition (st : Store) (k : Nat) : Except PErr (List Row × Store) :=
  let st' := mkdirP st k
  if ¬ dirExists st' k then .error .partitionNotFound
  else
    let files := filesAt st' k
    if files.isEmpty then .error .noParquetFiles
    else .ok (files.flatten, st')

/-- Validation errors of the reconciler (`ValueError` messages of
`_validate_scd_inputs`, test2.py lines 91-112, as a datatype). -/
inductive VErr : Type
  | businessKeyMissingInNew
  | businessKeyMissingInExisting
  | businessKeyNull
deriving DecidableEq, Repr

/-- Whether an optional cell is null for `pd.isna` purposes: absent column
or null value. -/
def isNullCell (c : Option Cell) : Bool :=
  match c with
  | some (some _) => false
  | _ => true

/-- test2.py lines 91-112: `_validate_scd_inputs`, the three checks in
source order.  pandas `DataFrame.empty` is true when either axis is
empty. -/
def validateSCDInputs (existing_records new_records : DF)
    (business_key : String) : Except VErr Unit :=
  if business_key ∉ new_records.cols then .error .businessKeyMissingInNew
  else if ¬ existing_records.isEmptyFrame ∧ business_key ∉ existing_records.cols then
    .error .businessKeyMissingInExisting
  else if new_records.rows.any (fun r => isNullCell (getCell r business_key)) then
    .error .businessKeyNull
  else .ok ()

/-- Add one column with a default value to every row if the column is
missing from the frame (`df[col] = default` on a frame lacking `col`). -/
def ensureColumn (df : DF) (c : String) (v : Cell) : DF :=
  if c ∈ df.cols then df
  else ⟨df.cols ++ [c], df.rows.map (fun r => setCell r c v)⟩

/-- test2.py lines 115-144: `_ensure_scd_columns` with defaults
effective = process date, expiration = NaT, is-current = true. -/
def ensureSCDColumns (df : DF) (eff exp cur : String) (d : Nat) : DF :=
  ensureColumn (ensureColumn (ensureColumn df eff (some (Val.vDate d))) exp none)
    cur (some (Val.vBool true))

/-- test2.py lines 147-174: `_has_data_changed`.  A column participates only
when present in both records; two nulls are equal; one null is a change;
otherwise value inequality is a change. -/
def hasDataChanged (current_record new_record : Row)
    (comparison_columns : List String) : Bool :=
  comparison_columns.any fun c =>
    match getCell current_record c, getCell new_record c with
    | some cv, some nv =>
      match cv, nv with
      | none, none => false
      | none, some _ => true
      | some _, none => true
      | some a, some b => decide (a ≠ b)
    | _, _ => false

/-- The boolean mask `(records[business_key] == cid) & (records[is_current] == True)`
applied to one row.  A null `cid` compares unequal to everything. -/
def isCurrentFor (bk cur : String) (cid : Cell) (r : Row) : Bool :=
  match cid, getCell r bk with
  | some v, some (some w) =>
    decide (v = w) && decide (getCell r cur = some (some (Val.vBool true)))
  | _, _ => false

/-- The row update done by `_expire_current_record` on a masked row:
expiration ← the process date, is-current ← false (test2.py lines 196-197). -/
def expireRow (exp cur : String) (d : Nat) (r : Row) : Row :=
  setCell (setCell r exp (some (Val.vDate d))) cur (some (Val.vBool false))

/-- test2.py lines 177-198: `_expire_current_record`, applied to the rows
selected by the mask. -/
def expireCurrentRecord (records : List Row) (mask : Row → Bool)
    (exp cur : String) (d : Nat) : List Row :=
  records.map (fun r => if mask r then expireRow exp cur d r else r)

/-- test2.py lines 201-226: `_create_new_customer_record` (also used by
`_create_new_version_record`, which delegates to it): the incoming row with
effective ← the process date, expiration ← NaT, is-current ← true. -/
def createNewCustomerRecord (new_record : Row) (eff exp cur : String)
    (d : Nat) : Row :=
  setCell (setCell (setCell new_record eff (some (Val.vDate d))) exp none)
    cur (some (Val.vBool true))

/-- The body of the per-incoming-row loop of `apply_scd_type2_logic`
(test2.py lines 55-86): find the current record for the key; insert a new
customer, or expire-and-version on change, or leave the state alone. -/
def scdStep (bk eff exp cur : String) (comparison_columns : List String)
    (d : Nat) (state : DF) (new_record : Row) : DF :=
  let cid : Cell := (getCell new_record bk).getD none
  let mask := isCurrentFor bk cur cid
  match state.rows.filter mask with
  | [] =>
    let nr := createNewCustomerRecord new_record eff exp cur d
    ⟨state.cols ++ (nr.map Prod.fst).filter (fun c => c ∉ state.cols),
      state.rows ++ [nr]⟩
  | current :: _ =>
    if hasDataChanged current new_record comparison_columns then
      let nr := createNewCustomerRecord new_record eff exp cur d
      ⟨state.cols ++ (nr.map Prod.fst).filter (fun c => c ∉ state.cols),
        expireCurrentRecord state.rows mask exp cur d ++ [nr]⟩
    else state

/-- Rank used to order cells of different scalar types in `sort_values`
(an arbitrary but fixed cross-type order; within a type the native order). -/
def valRank : Val → Nat
  | .vBool _ => 0
  | .vInt _ => 1
  | .vStr _ => 2
  | .vDate _ => 3

/-- Comparison of scalar values for `sort_values`. -/
def valLe : Val → Val → Bool
  | .vInt a, .vInt b => decide (a ≤ b)
  | .vStr a, .vStr b => decide (a ≤ b)
  | .vBool a, .vBool b => !a || b
  | .vDate a, .vDate b => decide (a ≤ b)
  | a, b => decide (valRank a ≤ valRank b)

/-- Comparison of cells for `sort_values`; nulls sort last (pandas
`na_position` default). -/
def cellLe : Cell → Cell → Bool
  | none, none => true
  | none, some _ => false
  | some _, none => true
  | some a, some b => valLe a b

/-- Row comparison for `sort_values([business_key, effective_date_col])`:
lexicographic on the business-key cell then the effective-date cell. -/
def rowLe (bk eff : String) (r1 r2 : Row) : Bool :=
  let k1 : Cell := (getCell r1 bk).getD none
  let k2 : Cell := (getCell r2 bk).getD none
  if k1 = k2 then cellLe ((getCell r1 eff).getD none) ((getCell r2 eff).getD none)
  else cellLe k1 k2

/-- test2.py lines 10-88: `apply_scd_type2_logic`.  The `process_date`
default (today) is caller-supplied here; the `processed_customers` set of
the source is write-only and dropped.  The result starts from a copy of
`existing_records`; the inputs are never written to. -/
def apply_scd_type2_logic (existing_records new_records : DF)
    (business_key effective_date_col expiration_date_col is_current_col : String)
    (process_date : Nat) : Except VErr DF := do
  validateSCDInputs existing_records new_records business_key
  let result0 := ensureSCDColumns existing_records effective_date_col
    expiration_date_col is_current_col process_date
  let scdMeta := [business_key, effective_date_col, expiration_date_col, is_current_col]
  let comparison_columns := new_records.cols.filter (fun c => c ∉ scdMeta)
  let result := new_records.rows.foldl
    (scdStep business_key effective_date_col expiration_date_col is_current_col
      comparison_columns process_date)
    result0
  pure ⟨result.cols,
    sortBy (rowLe business_key effective_date_col) result.rows⟩

/-! ## Basic lemmas about rows and the store -/

theorem getCell_setCell_self (r : Row) (c : String) (v : Cell) :
    getCell (setCell r c v) c = some v := by
  induction r with
  | nil => simp [setCell, getCell]
  | cons p r ih =>
    by_cases h : p.1 = c
    · simp [setCell, getCell, h]
    · simp [setCell, getCell, h, ih]

theorem getCell_setCell_ne (r : Row) (c c' : String) (v : Cell) (h : c' ≠ c) :
    getCell (setCell r c v) c' = getCell r c' := by
  induction r with
  | nil =>
    simp only [setCell, getCell]
    rw [if_neg (fun hh => h hh.symm)]
  | cons p r ih =>
    by_cases hp : p.1 = c
    · subst hp
      simp only [setCell, if_pos rfl, getCell]
      rw [if_neg (fun hh => h hh.symm), if_neg (fun hh => h hh.symm)]
    · simp only [setCell, if_neg hp, getCell, ih]

theorem find?_append_of_none {α : Type} (p : α → Bool) (l₁ l₂ : List α)
    (h : l₁.find? p = none) : (l₁ ++ l₂).find? p = l₂.find? p := by
  induction l₁ with
  | nil => simp
  | cons a l ih =>
    by_cases hp : p a
    · simp [List.find?, hp] at h
    · simp only [List.find?, hp] at h
      simp only [List.cons_append, List.find?, hp]
      exact ih h

theorem dirExists_mkdirP_self (st : Store) (k : Nat) :
    dirExists (mkdirP st k) k = true := by
  unfold mkdirP
  by_cases h : dirExists st k
  · simp [h]
  · simp only [h, Bool.false_eq_true, if_false]
    have hn : st.find? (fun p => p.1 = k) = none := by
      rcases hfind : st.find? (fun p => p.1 = k) with _ | p
      · exact hfind
      · exact absurd (by simp [dirExists, hfind]) h
    unfold dirExists
    rw [find?_append_of_none _ _ _ hn]
    simp [List.find?]

/-! ## C8: constructor validation -/

/-- C8 counterexample: constructing the partitioner with the non-positive
maximum file size 0 does not fail — Python `maxFileSizeMb or 100` treats 0
as falsy and silently substitutes the default before validation runs. -/
theorem mkDataPartitioner_zero_size_succeeds :
    mkDataPartitioner (some 0) (some "snappy") "date" =
      .ok ⟨100, some "snappy", "date"⟩ := by rfl

/-- C8 amended: construction fails exactly when the compression value is a
non-falsy string outside the supported set, or the maximum-file-size value
is strictly negative.  `None`/empty compression and `None`/zero size are
replaced by the defaults (snappy, 100) before validation and succeed. -/
theorem mkDataPartitioner_error_iff (m : Option Int) (c : Option String)
    (dc : String) :
    isErr (mkDataPartitioner m c dc) = true ↔
      ((∃ s, c = some s ∧ s ≠ "" ∧ some s ∉ SUPPORTED_COMPRESSIONS) ∨
        (∃ v, m = some v ∧ v < 0)) := by
  have hsup : (some "snappy") ∈ SUPPORTED_COMPRESSIONS := by
    simp [SUPPORTED_COMPRESSIONS]
  cases c with
  | none =>
    cases m with
    | none => simp [mkDataPartitioner, pyOrInt, pyOrStr, isErr, hsup]
    | some v =>
      by_cases hv : v = 0
      · simp [mkDataPartitioner, pyOrInt, pyOrStr, isErr, hsup, hv]
      · by_cases hneg : v < 0
        · have : v ≤ 0 := le_of_lt hneg
          simp [mkDataPartitioner, pyOrInt, pyOrStr, isErr, hsup, hv, this, hneg]
        · have : ¬ v ≤ 0 := fun hle => hneg (lt_of_le_of_ne hle hv)
          simp [mkDataPartitioner, pyOrInt, pyOrStr, isErr, hsup, hv, this, hneg]
  | some s =>
    by_cases hs : s = ""
    · cases m with
      | none => simp [mkDataPartitioner, pyOrInt, pyOrStr, isErr, hsup, hs]
      | some v =>
        by_cases hv : v = 0
        · simp [mkDataPartitioner, pyOrInt, pyOrStr, isErr, hsup, hs, hv]
        · by_cases hneg : v < 0
          · have : v ≤ 0 := le_of_lt hneg
            simp [mkDataPartitioner, pyOrInt, pyOrStr, isErr, hsup, hs, hv, this, hneg]
          · have : ¬ v ≤ 0 := fun hle => hneg (lt_of_le_of_ne hle hv)
            simp [mkDataPartitioner, pyOrInt, pyOrStr, isErr, hsup, hs, hv, this, hneg]
    · by_cases hmem : (some s) ∈ SUPPORTED_COMPRESSIONS
      · cases m with
        | none => simp [mkDataPartitioner, pyOrInt, pyOrStr, isErr, hs, hmem]
        | some v =>
          by_cases hv : v = 0
          · simp [mkDataPartitioner, pyOrInt, pyOrStr, isErr, hs, hmem, hv]
          · by_cases hneg : v < 0
            · have : v ≤ 0 := le_of_lt hneg
              simp [mkDataPartitioner, pyOrInt, pyOrStr, isErr, hs, hmem, hv, this, hneg]
            · have : ¬ v ≤ 0 := fun hle => hneg (lt_of_le_of_ne hle hv)
              simp [mkDataPartitioner, pyOrInt, pyOrStr, isErr, hs, hmem, hv, this, hneg]
      · simp [mkDataPartitioner, pyOrInt, pyOrStr, isErr, hs, hmem]

/-! ## C3: a row larger than the size bound crashes the splitter -/

/-- C3: on a one-row partition group whose estimated in-memory size
(2 MiB) exceeds `maxFileSizeMb = 1`, the claimed behaviour is a normal
return with at least one file; the code instead computes
`approximateRowsPerChunk = 0` and `range(0, 1, 0)` raises `ValueError`
(the `rangeStepZero` error of the embedding): no file is written. -/
theorem writePartitionData_row_larger_than_max_raises :
    writePartitionData 1 (fun _ => 2097152) [[("date", some (Val.vDate 0))]] =
        .error .rangeStepZero ∧
      1 * 1024 * 1024 < 2097152 := by
  constructor
  · rfl
  · norm_num

/-! ## C4: read errors for absent directories and empty partitions -/

/-- C4 counterexample: reading a date whose partition directory does not
exist (empty store) does not report the absent directory — the path helper
creates the directory first, so the error is the no-parquet-files one. -/
theorem read_partition_missing_dir_reports_no_files :
    read_partition [] 5 = .error .noParquetFiles ∧
      PErr.noParquetFiles ≠ PErr.partitionNotFound := by
  constructor
  · rfl
  · simp

/-- C4 amended: `read_partition` first creates the partition directory
(inside `_get_partition_path`), so the directory-not-found branch is
unreachable; whenever the directory holds no data files — in particular
whenever it did not exist before the call — the call fails with the
no-files-found error. -/
theorem read_partition_not_found_behaviour (st : Store) (k : Nat) :
    (filesAt (mkdirP st k) k = [] → read_partition st k = .error .noParquetFiles) ∧
      read_partition st k ≠ .error .partitionNotFound := by
  constructor
  · intro h
    simp [read_partition, dirExists_mkdirP_self, h]
  · unfold read_partition
    simp only [dirExists_mkdirP_self]
    split
    · simp_all
    · split <;> simp

/-- Witness for the amended C4: on the empty store the hypothesis holds and
the read fails with the no-files error. -/
theorem read_partition_not_found_behaviour_witness :
    (filesAt (mkdirP [] 0) 0 = [] → read_partition [] 0 = .error .noParquetFiles) ∧
      read_partition [] 0 ≠ .error .partitionNotFound :=
  read_partition_not_found_behaviour [] 0

/-! ## Chunking lemmas -/

theorem chunkList_length {α : Type} (r : Nat) (l : List α) :
    (chunkList r l).length = (l.length + r - 1) / r := by
  simp [chunkList]

theorem chunkList_mem {α : Type} {r : Nat} {l : List α} {ch : List α}
    (h : ch ∈ chunkList r l) :
    ∃ i, i < (l.length + r - 1) / r ∧ ch = (l.drop (i * r)).take r := by
  unfold chunkList at h
  obtain ⟨i, hi, rfl⟩ := List.mem_map.mp h
  exact ⟨i, List.mem_range.mp hi, rfl⟩

theorem chunkList_chunk_bounds {α : Type} {r : Nat} {l : List α} {ch : List α}
    (hr : 0 < r) (h : ch ∈ chunkList r l) : ch ≠ [] ∧ ch.length ≤ r := by
  obtain ⟨i, hi, rfl⟩ := chunkList_mem h
  have hmul : i * r + r ≤ l.length + r - 1 := by
    have h' := (Nat.le_div_iff_mul_le hr).mp (Nat.succ_le_of_lt hi)
    rw [Nat.succ_mul] at h'
    exact h'
  have hlt : i * r < l.length := by omega
  constructor
  · have hlen : ((l.drop (i * r)).take r).length = min r (l.length - i * r) := by
      simp [List.length_take, List.length_drop]
    intro hnil
    rw [hnil] at hlen
    simp only [List.length_nil] at hlen
    omega
  · rw [List.length_take]
    exact Nat.min_le_left _ _

/-- Unfolding step of the chunking: with a positive step and a non-empty
list, the first chunk is `take r` and the rest chunk the remainder. -/
theorem chunkList_cons {α : Type} {r : Nat} (hr : 0 < r) (l : List α)
    (hl : l ≠ []) : chunkList r l = l.take r :: chunkList r (l.drop r) := by
  have hn : 0 < l.length := List.length_pos.mpr hl
  have hceil : (l.length + r - 1) / r = (l.length - 1) / r + 1 := by
    have h1 : l.length + r - 1 = (l.length - 1) + r := by omega
    rw [h1, Nat.add_div_right _ hr]
  have hceil' : ((l.drop r).length + r - 1) / r = (l.length - 1) / r := by
    simp only [List.length_drop]
    by_cases hnr : r ≤ l.length
    · have : l.length - r + r - 1 = l.length - 1 := by omega
      rw [this]
    · have h0 : l.length - r = 0 := by omega
      rw [h0, Nat.div_eq_of_lt (by omega), Nat.div_eq_of_lt (by omega)]
  unfold chunkList
  rw [hceil, hceil', List.range_succ_eq_map, List.map_cons, List.map_map]
  simp only [Nat.zero_mul, List.drop_zero]
  congr 1
  apply List.map_congr_left
  intro i _
  simp only [Function.comp_apply, List.drop_drop, Nat.succ_mul, Nat.add_comm]

theorem chunkList_flatten {α : Type} (r : Nat) (hr : 0 < r) :
    ∀ (n : Nat) (l : List α), l.length ≤ n → (chunkList r l).flatten = l := by
  intro n
  induction n with
  | zero =>
    intro l hl
    have : l = [] := List.length_eq_zero.mp (Nat.le_zero.mp hl)
    subst this
    simp [chunkList]
  | succ n ih =>
    intro l hl
    rcases eq_or_ne l [] with rfl | hne
    · simp [chunkList]
    · rw [chunkList_cons hr l hne, List.flatten_cons,
        ih (l.drop r) (by simp only [List.length_drop]; omega)]
      exact List.take_append_drop r l

/-- Ceiling division is antitone in the divisor. -/
theorem ceil_div_le_ceil_div {r' r n : Nat} (hr' : 0 < r') (h : r' ≤ r) :
    (n + r - 1) / r ≤ (n + r' - 1) / r' := by
  have hr : 0 < r := lt_of_lt_of_le hr' h
  have hd := Nat.div_add_mod (n + r' - 1) r'
  have hmlt : (n + r' - 1) % r' < r' := Nat.mod_lt _ hr'
  have hdm : r' * ((n + r' - 1) / r') = ((n + r' - 1) / r') * r' := Nat.mul_comm _ _
  have hnm : n ≤ ((n + r' - 1) / r') * r' := by omega
  have hnm' : n ≤ ((n + r' - 1) / r') * r :=
    le_trans hnm (Nat.mul_le_mul_left _ h)
  have h2 : (n + r - 1) / r < (n + r' - 1) / r' + 1 := by
    rw [Nat.div_lt_iff_lt_mul hr, Nat.succ_mul]
    omega
  exact Nat.lt_succ_iff.mp h2

/-! ## C5: size-bounded splitting of oversized groups -/

/-- C5 counterexample: a two-row group of total estimated size 4 MiB with
`maxFileSizeMb = 1` has total estimated size above the maximum, yet it is
not split into bounded chunks — the write raises the range-step-zero
`ValueError` because even a single row exceeds the bound. -/
theorem writePartitionData_oversized_group_can_fail :
    writePartitionData 1 (fun _ => 4194304)
        [[("v", some (Val.vInt 1))], [("v", some (Val.vInt 2))]] =
        .error .rangeStepZero ∧
      1 * 1024 * 1024 < 4194304 := by
  constructor
  · rfl
  · norm_num

/-- C5 amended: for a non-empty group whose total estimated size `S = mem rows`
exceeds the byte bound `B = maxFileSizeMb * 2^20` while a single row still
fits the bound (`S ≤ B * n`, i.e. the average row size `S / n` is at most
`B`, which is exactly what the omitted degenerate case of C3 violates), the
group is split into consecutive chunks: their concatenation is the group,
no chunk is empty, every chunk satisfies `len * S ≤ B * n` (the estimated
chunk size `len * S / n` is at most `B`), the chunk count is the ceiling
`⌈n / approximateRowsPerChunk⌉`, and no fixed rows-per-chunk policy meeting
the bound needs fewer chunks. -/
theorem writePartitionData_split_correct (maxMb : Int) (mem : List Row → Nat)
    (rows : List Row) (hne : rows ≠ []) (hS : 0 < mem rows)
    (hover : maxMb.toNat * 1024 * 1024 < mem rows)
    (hrow : mem rows ≤ maxMb.toNat * 1024 * 1024 * rows.length) :
    ∃ chunks, writePartitionData maxMb mem rows = .ok chunks ∧
      chunks.flatten = rows ∧
      (∀ ch ∈ chunks, ch ≠ [] ∧
        ch.length * mem rows ≤ maxMb.toNat * 1024 * 1024 * rows.length) ∧
      1 < chunks.length ∧
      chunks.length =
        (rows.length + approximateRowsPerChunk maxMb (mem rows) rows.length - 1) /
          approximateRowsPerChunk maxMb (mem rows) rows.length ∧
      (∀ r', 0 < r' → r' * mem rows ≤ maxMb.toNat * 1024 * 1024 * rows.length →
        chunks.length ≤ (rows.length + r' - 1) / r') := by
  have hn : 0 < rows.length := List.length_pos.mpr hne
  have hax : approximateRowsPerChunk maxMb (mem rows) rows.length =
      maxMb.toNat * 1024 * 1024 * rows.length / mem rows := rfl
  have h1le : 1 ≤ approximateRowsPerChunk maxMb (mem rows) rows.length := by
    rw [hax, Nat.le_div_iff_mul_le hS]
    omega
  have hlt : approximateRowsPerChunk maxMb (mem rows) rows.length < rows.length := by
    rw [hax, Nat.div_lt_iff_lt_mul hS]
    calc maxMb.toNat * 1024 * 1024 * rows.length < mem rows * rows.length :=
          (Nat.mul_lt_mul_right hn).mpr hover
      _ = rows.length * mem rows := Nat.mul_comm _ _
  refine ⟨chunkList (approximateRowsPerChunk maxMb (mem rows) rows.length) rows,
    ?_, ?_, ?_, ?_, ?_, ?_⟩
  · simp only [writePartitionData]
    rw [if_pos hlt, if_neg (by omega)]
  · exact chunkList_flatten _ (by omega) rows.length rows le_rfl
  · intro ch hch
    obtain ⟨hne', hlen⟩ := chunkList_chunk_bounds (by omega) hch
    refine ⟨hne', ?_⟩
    calc ch.length * mem rows ≤
          approximateRowsPerChunk maxMb (mem rows) rows.length * mem rows :=
          Nat.mul_le_mul_right (mem rows) hlen
      _ ≤ maxMb.toNat * 1024 * 1024 * rows.length := by
          rw [hax]
          exact Nat.div_mul_le_self _ _
  · rw [chunkList_length]
    have h2 : 2 * approximateRowsPerChunk maxMb (mem rows) rows.length ≤
        rows.length + approximateRowsPerChunk maxMb (mem rows) rows.length - 1 := by
      omega
    have := (Nat.le_div_iff_mul_le (show
      0 < approximateRowsPerChunk maxMb (mem rows) rows.length by omega)).mpr h2
    omega
  · rw [chunkList_length]
  · intro r' hr' hbound
    rw [chunkList_length]
    have hr'le : r' ≤ approximateRowsPerChunk maxMb (mem rows) rows.length := by
      rw [hax, Nat.le_div_iff_mul_le hS]
      exact hbound
    exact ceil_div_le_ceil_div hr' hr'le

/-- Witness for the amended C5: three one-MiB rows against a 1 MB bound
split into three single-row files. -/
theorem writePartitionData_split_correct_witness :
    ∃ chunks, writePartitionData 1 (fun _ => 3145728)
        [[("v", some (Val.vInt 1))], [("v", some (Val.vInt 2))],
         [("v", some (Val.vInt 3))]] = .ok chunks ∧
      chunks.flatten =
        [[("v", some (Val.vInt 1))], [("v", some (Val.vInt 2))],
         [("v", some (Val.vInt 3))]] ∧
      (∀ ch ∈ chunks, ch ≠ [] ∧ ch.length * 3145728 ≤ 1 * 1024 * 1024 * 3) ∧
      1 < chunks.length ∧
      chunks.length = (3 + approximateRowsPerChunk 1 3145728 3 - 1) /
        approximateRowsPerChunk 1 3145728 3 ∧
      (∀ r', 0 < r' → r' * 3145728 ≤ 1 * 1024 * 1024 * 3 →
        chunks.length ≤ (3 + r' - 1) / r') :=
  writePartitionData_split_correct 1 (fun _ => 3145728)
    [[("v", some (Val.vInt 1))], [("v", some (Val.vInt 2))],
     [("v", some (Val.vInt 3))]]
    (by simp) (by norm_num) (by norm_num) (by norm_num)

/-! ## Destructuring `partition_data` -/

/-- Explicit match form of `partition_data` (the do-notation unfolded). -/
theorem partition_data_eq (P : DataPartitioner) (pd : String → Option Nat)
    (mem : List Row → Nat) (df : DF) (st : Store) :
    partition_data P pd mem df st =
      if P.dateColumn ∈ df.cols then
        match coerceDateColumn pd P.dateColumn df.rows with
        | .error e => .error e
        | .ok rows =>
          match partitionLoop P.maxFileSizeMb mem P.dateColumn rows
              (distinctDateKeys P.dateColumn rows) (⟨0, 0, rows.length, []⟩, st) with
          | .error e => .error e
          | .ok (stats, st') => .ok (⟨df.cols, rows⟩, stats, st')
      else .error .dateColumnNotFound := by
  unfold partition_data
  by_cases hc : P.dateColumn ∈ df.cols
  · rcases hco : coerceDateColumn pd P.dateColumn df.rows with e | rows
    · simp [Bind.bind, Except.bind, hc, pure, Except.pure]
    · rcases hloop : partitionLoop P.maxFileSizeMb mem P.dateColumn rows
          (distinctDateKeys P.dateColumn rows) (⟨0, 0, rows.length, []⟩, st) with e | pr
      · simp [Bind.bind, Except.bind, hc, pure, Except.pure, hloop]
      · rcases pr with ⟨stats0, st0⟩
        simp [Bind.bind, Except.bind, hc, pure, Except.pure, hloop]
  · simp [Bind.bind, Except.bind, hc, pure, Except.pure]

/-- Success of the cell-by-cell date coercion, element-wise. -/
theorem coerceDateColumn_ok {pd : String → Option Nat} {dc : String} :
    ∀ {rows rows' : List Row}, coerceDateColumn pd dc rows = .ok rows' →
    List.Forall₂ (fun r r' => ∃ v,
      toDatetime pd ((getCell r dc).getD none) = .ok v ∧
      r' = setCell r dc v) rows rows' := by
  intro rows
  induction rows with
  | nil =>
    intro rows' h
    simp only [coerceDateColumn, Except.ok.injEq] at h
    subst h
    exact List.Forall₂.nil
  | cons a l ih =>
    intro rows' h
    simp only [coerceDateColumn] at h
    rcases ht : toDatetime pd ((getCell a dc).getD none) with e | v
    · rw [ht] at h
      simp [Bind.bind, Except.bind] at h
    · rw [ht] at h
      rcases hrest : coerceDateColumn pd dc l with e | l'
      · rw [hrest] at h
        simp [Bind.bind, Except.bind] at h
      · rw [hrest] at h
        simp only [Bind.bind, Except.bind, pure, Except.pure, Except.ok.injEq] at h
        subst h
        exact List.Forall₂.cons ⟨v, ht, rfl⟩ (ih hrest)

/-- Whether a cell already holds a datetime value (nulls stay NaT and
count as datetime-typed). -/
def isDatetimeCell : Cell → Bool
  | none => true
  | some (Val.vDate _) => true
  | some _ => false

theorem toDatetime_ok_isDatetime {pd : String → Option Nat} {c v : Cell}
    (h : toDatetime pd c = .ok v) : isDatetimeCell v = true := by
  rcases c with _ | w
  · simp only [toDatetime, Except.ok.injEq] at h
    subst h
    rfl
  · rcases w with i | s | b | n
    · simp only [toDatetime, Except.ok.injEq] at h
      subst h
      rfl
    · simp only [toDatetime] at h
      rcases hp : pd s with _ | m
      · rw [hp] at h
        exact absurd h (by simp)
      · rw [hp] at h
        simp only [Except.ok.injEq] at h
        subst h
        rfl
    · exact absurd h (by simp [toDatetime])
    · simp only [toDatetime, Except.ok.injEq] at h
      subst h
      rfl

/-! ## C10: the in-place date coercion of the caller's dataframe -/

/-- C10: on success, the dataframe after the call (the caller's object, as
the coercion on test.py line 119 assigns into the input frame) has the same
columns, and row-wise the date column is replaced by its coerced datetime
value, produced by the cell-level `to_datetime`, while every other column
of every row is unchanged. -/
theorem partition_data_mutates_input_in_place
    (P : DataPartitioner) (pd : String → Option Nat) (mem : List Row → Nat)
    (df df' : DF) (stats : PartitionStats) (st st' : Store)
    (h : partition_data P pd mem df st = .ok (df', stats, st')) :
    df'.cols = df.cols ∧
    List.Forall₂ (fun r r' => ∃ v,
      toDatetime pd ((getCell r P.dateColumn).getD none) = .ok v ∧
      r' = setCell r P.dateColumn v ∧
      getCell r' P.dateColumn = some v ∧
      isDatetimeCell v = true ∧
      ∀ c, c ≠ P.dateColumn → getCell r' c = getCell r c) df.rows df'.rows := by
  rw [partition_data_eq] at h
  by_cases hc : P.dateColumn ∈ df.cols
  · rw [if_pos hc] at h
    rcases hco : coerceDateColumn pd P.dateColumn df.rows with e | rows
    · rw [hco] at h
      exact absurd h (by simp)
    · rw [hco] at h
      dsimp only at h
      rcases hloop : partitionLoop P.maxFileSizeMb mem P.dateColumn rows
          (distinctDateKeys P.dateColumn rows) (⟨0, 0, rows.length, []⟩, st) with e | pr
      · rw [hloop] at h
        exact absurd h (by simp)
      · rw [hloop] at h
        rcases pr with ⟨stats0, st0⟩
        simp only [Except.ok.injEq, Prod.mk.injEq] at h
        obtain ⟨hdf, -, -⟩ := h
        subst hdf
        refine ⟨rfl, ?_⟩
        refine (coerceDateColumn_ok hco).imp ?_
        rintro r r' ⟨v, hv, rfl⟩
        exact ⟨v, hv, rfl, getCell_setCell_self r P.dateColumn v,
          toDatetime_ok_isDatetime hv,
          fun c hcne => getCell_setCell_ne r P.dateColumn c v hcne⟩
  · rw [if_neg hc] at h
    exact absurd h (by simp)

/-- Witness for C10: a one-row frame with a string date is returned with
that cell coerced to the parsed datetime and nothing else touched. -/
theorem partition_data_mutates_input_in_place_witness :
    (DF.mk ["date"] [[("date", some (Val.vDate 7))]]).cols =
        (DF.mk ["date"] [[("date", some (Val.vStr "d"))]]).cols ∧
    List.Forall₂ (fun r r' => ∃ v,
      toDatetime (fun _ => some 7) ((getCell r "date").getD none) = .ok v ∧
      r' = setCell r "date" v ∧
      getCell r' "date" = some v ∧
      isDatetimeCell v = true ∧
      ∀ c, c ≠ "date" → getCell r' c = getCell r c)
      (DF.mk ["date"] [[("date", some (Val.vStr "d"))]]).rows
      (DF.mk ["date"] [[("date", some (Val.vDate 7))]]).rows :=
  partition_data_mutates_input_in_place
    ⟨100, some "snappy", "date"⟩ (fun _ => some 7) (fun _ => 5)
    (DF.mk ["date"] [[("date", some (Val.vStr "d"))]])
    (DF.mk ["date"] [[("date", some (Val.vDate 7))]])
    ⟨1, 1, 1, [⟨7, 1, 1⟩]⟩ [] [(7, [[[("date", some (Val.vDate 7))]]])]
    (by rfl)

/-! ## Store lemmas -/

theorem filesAt_eq_nil_of_not_dirExists {st : Store} {k : Nat}
    (h : dirExists st k = false) : filesAt st k = [] := by
  unfold dirExists at h
  rcases hf : st.find? (fun p => p.1 = k) with _ | p
  · simp [filesAt, hf]
  · rw [hf] at h
    simp at h

theorem dirExists_of_filesAt_ne_nil {st : Store} {k : Nat}
    (h : filesAt st k ≠ []) : dirExists st k = true := by
  by_contra hc
  exact h (filesAt_eq_nil_of_not_dirExists (by simpa using hc))

theorem mkdirP_of_dirExists {st : Store} {k : Nat}
    (h : dirExists st k = true) : mkdirP st k = st := by
  unfold mkdirP
  rw [if_pos h]

theorem filesAt_mkdirP (st : Store) (k k' : Nat) :
    filesAt (mkdirP st k) k' = filesAt st k' := by
  unfold mkdirP
  by_cases h : dirExists st k
  · rw [if_pos h]
  · rw [if_neg h]
    unfold filesAt
    rw [List.find?_append]
    rcases hf : st.find? (fun p => p.1 = k') with _ | p
    · by_cases hk : k = k'
      · subst hk
        have hn : st.find? (fun p => p.1 = k) = none := by
          rcases hg : st.find? (fun p => p.1 = k) with _ | q
          · exact hg
          · exact absurd (by simp [dirExists, hg]) h
        simp [List.find?, hn]
      · simp [List.find?, hf, hk]
    · simp [hf]

theorem dirExists_mkdirP (st : Store) (k k' : Nat) (h : k' ≠ k) :
    dirExists (mkdirP st k) k' = dirExists st k' := by
  unfold mkdirP
  by_cases hd : dirExists st k
  · rw [if_pos hd]
  · rw [if_neg hd]
    unfold dirExists
    rw [List.find?_append]
    rcases hf : st.find? (fun p => p.1 = k') with _ | p
    · simp [List.find?, hf, show ¬ (k = k') from fun hh => h hh.symm]
    · simp [hf]

theorem dirExists_addFile (st : Store) (k k' : Nat) (f : FileData) :
    dirExists (addFile st k f) k' = dirExists st k' := by
  induction st with
  | nil => rfl
  | cons p st ih =>
    simp only [addFile, List.map_cons] at ih ⊢
    by_cases hp : p.1 = k
    · rw [if_pos hp]
      by_cases hk' : p.1 = k'
      · simp [dirExists, List.find?, hk']
      · simpa [dirExists, List.find?, hk'] using ih
    · rw [if_neg hp]
      by_cases hk' : p.1 = k'
      · simp [dirExists, List.find?, hk']
      · simpa [dirExists, List.find?, hk'] using ih

theorem filesAt_addFile_self (st : Store) (k : Nat) (f : FileData)
    (h : dirExists st k = true) :
    filesAt (addFile st k f) k = filesAt st k ++ [f] := by
  induction st with
  | nil => simp [dirExists, List.find?] at h
  | cons p st ih =>
    simp only [addFile, List.map_cons] at ih ⊢
    by_cases hp : p.1 = k
    · subst hp
      simp [filesAt, List.find?]
    · rw [if_neg hp]
      have h' : dirExists st k = true := by
        simpa [dirExists, List.find?, hp] using h
      simpa [filesAt, List.find?, hp] using ih h'

theorem filesAt_addFile_ne (st : Store) (k k' : Nat) (f : FileData)
    (h : k' ≠ k) : filesAt (addFile st k f) k' = filesAt st k' := by
  induction st with
  | nil => rfl
  | cons p st ih =>
    simp only [addFile, List.map_cons] at ih ⊢
    by_cases hp : p.1 = k
    · rw [if_pos hp]
      have hne' : ¬ (p.1 = k') := fun hh => h (hh.symm.trans hp)
      simpa [filesAt, List.find?, hne'] using ih
    · rw [if_neg hp]
      by_cases hk' : p.1 = k'
      · simp [filesAt, List.find?, hk']
      · simpa [filesAt, List.find?, hk'] using ih

theorem filesAt_foldl_addFile_self (files : List FileData) :
    ∀ (st : Store) (k : Nat), dirExists st k = true →
    filesAt (files.foldl (fun s f => addFile s k f) st) k = filesAt st k ++ files := by
  induction files with
  | nil => intro st k _; simp
  | cons f fs ih =>
    intro st k h
    simp only [List.foldl_cons]
    rw [ih (addFile st k f) k (by rw [dirExists_addFile]; exact h),
      filesAt_addFile_self st k f h]
    simp

theorem filesAt_foldl_addFile_ne (files : List FileData) :
    ∀ (st : Store) (k k' : Nat), k' ≠ k →
    filesAt (files.foldl (fun s f => addFile s k f) st) k' = filesAt st k' := by
  induction files with
  | nil => intro st k k' _; rfl
  | cons f fs ih =>
    intro st k k' h
    simp only [List.foldl_cons]
    rw [ih (addFile st k f) k k' h, filesAt_addFile_ne st k k' f h]

theorem dirExists_foldl_addFile (files : List FileData) :
    ∀ (st : Store) (k k' : Nat),
    dirExists (files.foldl (fun s f => addFile s k f) st) k' = dirExists st k' := by
  induction files with
  | nil => intro st k k'; rfl
  | cons f fs ih =>
    intro st k k'
    simp only [List.foldl_cons]
    rw [ih (addFile st k f) k k', dirExists_addFile]

/-! ## Sorting and grouping lemmas -/

theorem insertSorted_perm {α : Type} (le : α → α → Bool) (a : α) (l : List α) :
    List.Perm (insertSorted le a l) (a :: l) := by
  induction l with
  | nil => exact List.Perm.refl _
  | cons b l ih =>
    unfold insertSorted
    by_cases hle : le a b
    · rw [if_pos hle]
    · rw [if_neg hle]
      exact (ih.cons b).trans (List.Perm.swap a b l)

theorem sortBy_perm {α : Type} (le : α → α → Bool) (l : List α) :
    List.Perm (sortBy le l) l := by
  induction l with
  | nil => exact List.Perm.refl _
  | cons a l ih =>
    exact (insertSorted_perm le a (sortBy le l)).trans (ih.cons a)

theorem distinctDateKeys_nodup (dc : String) (rows : List Row) :
    (distinctDateKeys dc rows).Nodup :=
  (sortBy_perm _ _).nodup_iff.mpr (List.nodup_dedup _)

theorem mem_distinctDateKeys {dc : String} {rows : List Row} {r : Row} {k : Nat}
    (hr : r ∈ rows) (hk : dateKeyOf dc r = some k) :
    k ∈ distinctDateKeys dc rows :=
  (sortBy_perm _ _).mem_iff.mpr (List.mem_dedup.mpr
    (List.mem_filterMap.mpr ⟨r, hr, hk⟩))

/-- Partitioning a list by the distinct values of a key function: the
concatenation of the groups is a permutation of the list, provided every
element's key is covered. -/
theorem flatten_filter_perm {α : Type} (f : α → Option Nat) :
    ∀ (ks : List Nat) (l : List α), ks.Nodup →
      (∀ x ∈ l, ∃ k, f x = some k ∧ k ∈ ks) →
      List.Perm (ks.map (fun k => l.filter (fun x => f x = some k))).flatten l := by
  intro ks
  induction ks with
  | nil =>
    intro l _ hcov
    have : l = [] := by
      cases l with
      | nil => rfl
      | cons a t =>
        obtain ⟨k, -, hk⟩ := hcov a (by simp)
        exact absurd hk (List.not_mem_nil k)
    subst this
    simp
  | cons k ks ih =>
    intro l hnd hcov
    have hndk : k ∉ ks := (List.nodup_cons.mp hnd).1
    have hnd' : ks.Nodup := (List.nodup_cons.mp hnd).2
    have hfilters : ∀ k' ∈ ks,
        l.filter (fun x => f x = some k') =
          (l.filter (fun x => ! decide (f x = some k))).filter
            (fun x => f x = some k') := by
      intro k' hk'
      rw [List.filter_filter]
      apply List.filter_congr
      intro x _
      by_cases hx : f x = some k'
      · have hkk : ¬ (k' = k) := fun hh => hndk (hh ▸ hk')
        simp [hx, hkk]
      · simp [hx]
    have hmapeq : ks.map (fun k' => l.filter (fun x => f x = some k')) =
        ks.map (fun k' => (l.filter (fun x => ! decide (f x = some k))).filter
          (fun x => f x = some k')) :=
      List.map_congr_left hfilters
    have hcov' : ∀ x ∈ l.filter (fun x => ! decide (f x = some k)),
        ∃ k', f x = some k' ∧ k' ∈ ks := by
      intro x hx
      obtain ⟨hxl, hxk⟩ := List.mem_filter.mp hx
      obtain ⟨k'', hk'', hmem⟩ := hcov x hxl
      rcases List.mem_cons.mp hmem with rfl | hmem'
      · exact absurd hk'' (by simpa using hxk)
      · exact ⟨k'', hk'', hmem'⟩
    have hhead : ((k :: ks).map (fun k' => l.filter (fun x => f x = some k'))).flatten
        = l.filter (fun x => f x = some k) ++
          (ks.map (fun k' => l.filter (fun x => f x = some k'))).flatten := by
      simp
    rw [hhead, hmapeq]
    exact (List.Perm.append_left _ (ih _ hnd' hcov')).trans
      (List.filter_append_perm _ l)

/-! ## The files written for one group -/

theorem writePartitionData_ok_flatten {maxMb : Int} {mem : List Row → Nat}
    {pdata : List Row} {files : List FileData}
    (h : writePartitionData maxMb mem pdata = .ok files) :
    files.flatten = pdata := by
  unfold writePartitionData at h
  by_cases hlt : approximateRowsPerChunk maxMb (mem pdata) pdata.length < pdata.length
  · rw [if_pos hlt] at h
    by_cases h0 : approximateRowsPerChunk maxMb (mem pdata) pdata.length = 0
    · rw [if_pos h0] at h
      exact absurd h (by simp)
    · rw [if_neg h0] at h
      simp only [Except.ok.injEq] at h
      subst h
      exact chunkList_flatten _ (Nat.pos_of_ne_zero h0) pdata.length pdata le_rfl
  · rw [if_neg hlt] at h
    simp only [Except.ok.injEq] at h
    subst h
    simp

theorem writePartitionData_ok_ne_nil {maxMb : Int} {mem : List Row → Nat}
    {pdata : List Row} {files : List FileData}
    (h : writePartitionData maxMb mem pdata = .ok files) (hne : pdata ≠ []) :
    files ≠ [] := by
  intro hnil
  apply hne
  rw [← writePartitionData_ok_flatten h, hnil]
  rfl

/-! ## The store after the partition loop -/

theorem dirExists_mkdirP_mono {st : Store} {k : Nat} (k0 : Nat)
    (h : dirExists st k = true) : dirExists (mkdirP st k0) k = true := by
  by_cases hk : k = k0
  · subst hk
    exact dirExists_mkdirP_self st k
  · rw [dirExists_mkdirP st k0 k hk]
    exact h

theorem dirExists_partitionLoop {maxMb : Int} {mem : List Row → Nat} {dc : String}
    {rows : List Row} {k : Nat} :
    ∀ {ks : List Nat} {stats : PartitionStats} {st : Store}
      {stats' : PartitionStats} {st' : Store},
    partitionLoop maxMb mem dc rows ks (stats, st) = .ok (stats', st') →
    dirExists st k = true → dirExists st' k = true := by
  intro ks
  induction ks with
  | nil =>
    intro stats st stats' st' h hd
    simp only [partitionLoop, Except.ok.injEq, Prod.mk.injEq] at h
    obtain ⟨-, rfl⟩ := h
    exact hd
  | cons k0 ks ih =>
    intro stats st stats' st' h hd
    simp only [partitionLoop] at h
    rcases hw : writePartitionData maxMb mem
        (rows.filter (fun r => dateKeyOf dc r = some k0)) with e | files
    · rw [hw] at h
      simp [Bind.bind, Except.bind] at h
    · rw [hw] at h
      dsimp only [Bind.bind, Except.bind] at h
      refine ih h ?_
      rw [dirExists_foldl_addFile]
      exact dirExists_mkdirP_mono k0 hd

theorem partitionLoop_ok_store {maxMb : Int} {mem : List Row → Nat} {dc : String}
    {rows : List Row} :
    ∀ {ks : List Nat} {stats : PartitionStats} {st : Store}
      {stats' : PartitionStats} {st' : Store},
    partitionLoop maxMb mem dc rows ks (stats, st) = .ok (stats', st') →
    ks.Nodup →
    (∀ k, k ∉ ks → filesAt st' k = filesAt st k) ∧
    (∀ k ∈ ks, ∃ files,
      writePartitionData maxMb mem (rows.filter (fun r => dateKeyOf dc r = some k)) =
        .ok files ∧
      filesAt st' k = filesAt st k ++ files ∧
      dirExists st' k = true) := by
  intro ks
  induction ks with
  | nil =>
    intro stats st stats' st' h _
    simp only [partitionLoop, Except.ok.injEq, Prod.mk.injEq] at h
    obtain ⟨-, rfl⟩ := h
    exact ⟨fun _ _ => rfl, fun k hk => absurd hk (List.not_mem_nil k)⟩
  | cons k ks ih =>
    intro stats st stats' st' h hnd
    have hndk : k ∉ ks := (List.nodup_cons.mp hnd).1
    have hnd' : ks.Nodup := (List.nodup_cons.mp hnd).2
    simp only [partitionLoop] at h
    rcases hw : writePartitionData maxMb mem
        (rows.filter (fun r => dateKeyOf dc r = some k)) with e | files
    · rw [hw] at h
      simp [Bind.bind, Except.bind] at h
    · rw [hw] at h
      dsimp only [Bind.bind, Except.bind] at h
      obtain ⟨hout, hin⟩ := ih h hnd'
      have hstep_ne : ∀ k', k' ≠ k →
          filesAt (files.foldl (fun s f => addFile s k f) (mkdirP st k)) k' =
            filesAt st k' := by
        intro k' hk'
        rw [filesAt_foldl_addFile_ne files (mkdirP st k) k k' hk', filesAt_mkdirP]
      have hstep_self :
          filesAt (files.foldl (fun s f => addFile s k f) (mkdirP st k)) k =
            filesAt st k ++ files := by
        rw [filesAt_foldl_addFile_self files (mkdirP st k) k
          (dirExists_mkdirP_self st k), filesAt_mkdirP]
      constructor
      · intro k' hk'
        have hk'k : k' ≠ k := fun hh => hk' (hh ▸ List.mem_cons_self k ks)
        have hk'ks : k' ∉ ks := fun hh => hk' (List.mem_cons_of_mem k hh)
        rw [hout k' hk'ks, hstep_ne k' hk'k]
      · intro k' hk'
        rcases List.mem_cons.mp hk' with rfl | hk'ks
        · refine ⟨files, hw, ?_, ?_⟩
          · rw [hout k' hndk, hstep_self]
          · rw [← hout k' hndk] at hstep_self
            have hde : dirExists
                (files.foldl (fun s f => addFile s k' f) (mkdirP st k')) k' = true := by
              rw [dirExists_foldl_addFile, dirExists_mkdirP_self]
            -- directory existence survives the rest of the loop:
            -- it holds in st' because filesAt st' k' = filesAt st k' ++ files
            -- is not enough when files = []; use monotonicity instead
            exact dirExists_partitionLoop h hde
        · obtain ⟨files', hw', hfs, hde⟩ := hin k' hk'ks
          have hk'k : k' ≠ k := fun hh => hndk (hh ▸ hk'ks)
          exact ⟨files', hw', by rw [hfs, hstep_ne k' hk'k], hde⟩

/-! ## C1: partition and read back -/

/-- All rows readable from one partition directory, in file order. -/
def readRowsAt (st : Store) (k : Nat) : List Row :=
  (filesAt st k).flatten

/-- C1 counterexample: a dataset with one row whose date cell is null is
partitioned successfully, but the row is silently dropped by the groupby
(null group keys are discarded): there is no date to read back, so the
multiset union over all distinct occurring dates is empty, not the one-row
dataset. -/
theorem partition_data_null_date_loses_rows :
    partition_data ⟨100, some "snappy", "date"⟩ (fun _ => none) (fun _ => 1)
        ⟨["date"], [[("date", none)]]⟩ [] =
      .ok (⟨["date"], [[("date", none)]]⟩, ⟨0, 0, 1, []⟩, []) ∧
    ((distinctDateKeys "date" [[("date", none)]]).map
        (readRowsAt ([] : Store))).flatten = [] ∧
    (DF.mk ["date"] [[("date", none)]]).rows ≠ [] := by
  refine ⟨rfl, rfl, by simp⟩

/-- C1 amended: starting from an empty output directory, if `partition_data`
succeeds and every date cell of the (coerced, in-place updated) dataset is
non-null, then reading every distinct occurring date back succeeds and the
concatenation of the reads is a permutation (multiset equality) of the
dataset rows: no row lost, none duplicated.  (Rows with a null date are
excluded by the hypothesis: the groupby drops them, see the counterexample;
and the recovered rows carry the coerced date column, since the call
updates the caller's frame in place.) -/
theorem partition_then_read_roundtrip
    (P : DataPartitioner) (pd : String → Option Nat) (mem : List Row → Nat)
    (df df' : DF) (stats : PartitionStats) (st' : Store)
    (hrun : partition_data P pd mem df [] = .ok (df', stats, st'))
    (hnn : ∀ r ∈ df'.rows, (dateKeyOf P.dateColumn r).isSome = true) :
    (∀ k ∈ distinctDateKeys P.dateColumn df'.rows,
      read_partition st' k = .ok (readRowsAt st' k, st')) ∧
    List.Perm
      ((distinctDateKeys P.dateColumn df'.rows).map (readRowsAt st')).flatten
      df'.rows := by
  rw [partition_data_eq] at hrun
  by_cases hc : P.dateColumn ∈ df.cols
  · rw [if_pos hc] at hrun
    rcases hco : coerceDateColumn pd P.dateColumn df.rows with e | rows
    · rw [hco] at hrun
      exact absurd hrun (by simp)
    · rw [hco] at hrun
      dsimp only at hrun
      rcases hloop : partitionLoop P.maxFileSizeMb mem P.dateColumn rows
          (distinctDateKeys P.dateColumn rows) (⟨0, 0, rows.length, []⟩, []) with e | pr
      · rw [hloop] at hrun
        exact absurd hrun (by simp)
      · rw [hloop] at hrun
        rcases pr with ⟨stats0, st0⟩
        simp only [Except.ok.injEq, Prod.mk.injEq] at hrun
        obtain ⟨hdf, -, hst⟩ := hrun
        subst hdf
        subst hst
        obtain ⟨-, hin⟩ := partitionLoop_ok_store hloop
          (distinctDateKeys_nodup P.dateColumn rows)
        have hread : ∀ k ∈ distinctDateKeys P.dateColumn rows,
            read_partition st0 k = .ok (readRowsAt st0 k, st0) ∧
            readRowsAt st0 k =
              (rows.filter (fun r => dateKeyOf P.dateColumn r = some k)) := by
          intro k hk
          obtain ⟨files, hw, hfs, hde⟩ := hin k hk
          have hfiles : filesAt st0 k = files := by
            rw [hfs]
            rfl
          have hgrp_ne :
              rows.filter (fun r => dateKeyOf P.dateColumn r = some k) ≠ [] := by
            have hk' : k ∈ (rows.filterMap (dateKeyOf P.dateColumn)).dedup :=
              (sortBy_perm _ _).mem_iff.mp hk
            obtain ⟨r, hr, hkey⟩ := List.mem_filterMap.mp (List.mem_dedup.mp hk')
            exact List.ne_nil_of_mem
              (List.mem_filter.mpr ⟨hr, by simp [hkey]⟩)
          have hfne : files ≠ [] := writePartitionData_ok_ne_nil hw hgrp_ne
          constructor
          · unfold read_partition
            rw [mkdirP_of_dirExists hde]
            rw [if_neg (by simp [hde])]
            rw [hfiles, if_neg (by simpa using hfne)]
            unfold readRowsAt
            rw [hfiles]
          · unfold readRowsAt
            rw [hfiles, writePartitionData_ok_flatten hw]
        refine ⟨fun k hk => (hread k hk).1, ?_⟩
        have hmap : (distinctDateKeys P.dateColumn rows).map (readRowsAt st0) =
            (distinctDateKeys P.dateColumn rows).map
              (fun k => rows.filter (fun r => dateKeyOf P.dateColumn r = some k)) :=
          List.map_congr_left (fun k hk => (hread k hk).2)
        rw [hmap]
        refine flatten_filter_perm (dateKeyOf P.dateColumn)
          (distinctDateKeys P.dateColumn rows) rows
          (distinctDateKeys_nodup P.dateColumn rows) ?_
        intro r hr
        obtain ⟨k, hk⟩ := Option.isSome_iff_exists.mp (hnn r hr)
        exact ⟨k, hk, mem_distinctDateKeys hr hk⟩
  · rw [if_neg hc] at hrun
    exact absurd hrun (by simp)

/-- Witness for the amended C1: three rows over two dates are partitioned
and read back in full. -/
theorem partition_then_read_roundtrip_witness :
    (∀ k ∈ distinctDateKeys "date"
        [[("date", some (Val.vDate 1)), ("value", some (Val.vInt 1))],
         [("date", some (Val.vDate 2)), ("value", some (Val.vInt 2))],
         [("date", some (Val.vDate 1)), ("value", some (Val.vInt 3))]],
      read_partition
        [(1, [[[("date", some (Val.vDate 1)), ("value", some (Val.vInt 1))],
               [("date", some (Val.vDate 1)), ("value", some (Val.vInt 3))]]]),
         (2, [[[("date", some (Val.vDate 2)), ("value", some (Val.vInt 2))]]])] k =
        .ok (readRowsAt
          [(1, [[[("date", some (Val.vDate 1)), ("value", some (Val.vInt 1))],
                 [("date", some (Val.vDate 1)), ("value", some (Val.vInt 3))]]]),
           (2, [[[("date", some (Val.vDate 2)), ("value", some (Val.vInt 2))]]])] k,
          [(1, [[[("date", some (Val.vDate 1)), ("value", some (Val.vInt 1))],
                 [("date", some (Val.vDate 1)), ("value", some (Val.vInt 3))]]]),
           (2, [[[("date", some (Val.vDate 2)), ("value", some (Val.vInt 2))]]])])) ∧
    List.Perm
      ((distinctDateKeys "date"
        [[("date", some (Val.vDate 1)), ("value", some (Val.vInt 1))],
         [("date", some (Val.vDate 2)), ("value", some (Val.vInt 2))],
         [("date", some (Val.vDate 1)), ("value", some (Val.vInt 3))]]).map
        (readRowsAt
          [(1, [[[("date", some (Val.vDate 1)), ("value", some (Val.vInt 1))],
                 [("date", some (Val.vDate 1)), ("value", some (Val.vInt 3))]]]),
           (2, [[[("date", some (Val.vDate 2)), ("value", some (Val.vInt 2))]]])])).flatten
      [[("date", some (Val.vDate 1)), ("value", some (Val.vInt 1))],
       [("date", some (Val.vDate 2)), ("value", some (Val.vInt 2))],
       [("date", some (Val.vDate 1)), ("value", some (Val.vInt 3))]] :=
  partition_then_read_roundtrip ⟨100, some "snappy", "date"⟩
    (fun s => if s = "d1" then some 1 else some 2) (fun rs => rs.length)
    ⟨["date", "value"],
      [[("date", some (Val.vStr "d1")), ("value", some (Val.vInt 1))],
       [("date", some (Val.vStr "d2")), ("value", some (Val.vInt 2))],
       [("date", some (Val.vStr "d1")), ("value", some (Val.vInt 3))]]⟩
    ⟨["date", "value"],
      [[("date", some (Val.vDate 1)), ("value", some (Val.vInt 1))],
       [("date", some (Val.vDate 2)), ("value", some (Val.vInt 2))],
       [("date", some (Val.vDate 1)), ("value", some (Val.vInt 3))]]⟩
    ⟨2, 2, 3, [⟨1, 2, 1⟩, ⟨2, 1, 1⟩]⟩
    [(1, [[[("date", some (Val.vDate 1)), ("value", some (Val.vInt 1))],
           [("date", some (Val.vDate 1)), ("value", some (Val.vInt 3))]]]),
     (2, [[[("date", some (Val.vDate 2)), ("value", some (Val.vInt 2))]]])]
    (by rfl) (by decide)

/-! ## Destructuring the reconciler -/

/-- The pure post-validation computation of `apply_scd_type2_logic`:
ensure the metadata columns, fold the per-row step over the incoming rows,
sort by business key then effective date. -/
def scdResult (existing_records new_records : DF)
    (business_key effective_date_col expiration_date_col is_current_col : String)
    (process_date : Nat) : DF :=
  let result0 := ensureSCDColumns existing_records effective_date_col
    expiration_date_col is_current_col process_date
  let scdMeta := [business_key, effective_date_col, expiration_date_col, is_current_col]
  let comparison_columns := new_records.cols.filter (fun c => c ∉ scdMeta)
  let result := new_records.rows.foldl
    (scdStep business_key effective_date_col expiration_date_col is_current_col
      comparison_columns process_date)
    result0
  ⟨result.cols, sortBy (rowLe business_key effective_date_col) result.rows⟩

/-- `apply_scd_type2_logic` is the validation followed by the pure
computation: validation is the only error source. -/
theorem apply_scd_eq (E S : DF) (bk eff exp cur : String) (d : Nat) :
    apply_scd_type2_logic E S bk eff exp cur d =
      match validateSCDInputs E S bk with
      | .error e => .error e
      | .ok _ => .ok (scdResult E S bk eff exp cur d) := by
  unfold apply_scd_type2_logic scdResult
  rcases hv : validateSCDInputs E S bk with e | u
  · rfl
  · rfl

/-! ## C6: validation errors -/

theorem validateSCDInputs_error_iff (E S : DF) (bk : String) :
    isErr (validateSCDInputs E S bk) = true ↔
      (bk ∉ S.cols ∨
       (E.rows ≠ [] ∧ E.cols ≠ [] ∧ bk ∉ E.cols) ∨
       (∃ r ∈ S.rows, isNullCell (getCell r bk) = true)) := by
  unfold validateSCDInputs
  by_cases h1 : bk ∈ S.cols
  · rw [if_neg (by simpa using h1)]
    by_cases h2 : ¬ E.isEmptyFrame = true ∧ bk ∉ E.cols
    · rw [if_pos h2]
      simp only [isErr, true_iff]
      refine Or.inr (Or.inl ?_)
      obtain ⟨he, hbk⟩ := h2
      simp only [DF.isEmptyFrame, Bool.or_eq_true, List.isEmpty_iff, not_or] at he
      exact ⟨he.1, he.2, hbk⟩
    · rw [if_neg h2]
      by_cases h3 : S.rows.any (fun r => isNullCell (getCell r bk)) = true
      · rw [if_pos h3]
        simp only [isErr, true_iff]
        exact Or.inr (Or.inr (by simpa using List.any_eq_true.mp h3))
      · rw [if_neg h3]
        simp only [isErr, Bool.false_eq_true, false_iff, not_or]
        refine ⟨by simpa using h1, ?_, ?_⟩
        · intro ⟨hr, hcc, hbk⟩
          exact h2 ⟨by simp [DF.isEmptyFrame, List.isEmpty_iff, hr, hcc], hbk⟩
        · intro hex
          exact h3 (List.any_eq_true.mpr (by simpa using hex))
  · rw [if_pos (by simpa using h1)]
    simp only [isErr, true_iff]
    exact Or.inl h1

/-- C6: the reconciler raises a validation error exactly when the
business-key column is absent from the incoming frame, or absent from a
non-empty existing frame, or some incoming row has a null business key.
Validation runs before any computation and the embedding is pure: the
caller's frames are never written to (the source builds its result from
`existing_records.copy()` and every helper copies before mutating). -/
theorem apply_scd_validation_iff (E S : DF) (bk eff exp cur : String) (d : Nat) :
    isErr (apply_scd_type2_logic E S bk eff exp cur d) = true ↔
      (bk ∉ S.cols ∨
       (E.rows ≠ [] ∧ E.cols ≠ [] ∧ bk ∉ E.cols) ∨
       (∃ r ∈ S.rows, isNullCell (getCell r bk) = true)) := by
  rw [apply_scd_eq, ← validateSCDInputs_error_iff E S bk]
  rcases hv : validateSCDInputs E S bk with e | u <;> simp [isErr, hv]

/-! ## C2: the step on a uniquely matched current record -/

/-- The mask of the loop body for one incoming row: business-key cell equal
to the incoming key and is-current true. -/
def maskFor (bk cur : String) (nr : Row) : Row → Bool :=
  isCurrentFor bk cur ((getCell nr bk).getD none)

theorem getCell_expireRow_exp (exp cur : String) (d : Nat) (r : Row)
    (h : exp ≠ cur) :
    getCell (expireRow exp cur d r) exp = some (some (Val.vDate d)) := by
  unfold expireRow
  rw [getCell_setCell_ne _ _ _ _ h, getCell_setCell_self]

theorem getCell_expireRow_cur (exp cur : String) (d : Nat) (r : Row) :
    getCell (expireRow exp cur d r) cur = some (some (Val.vBool false)) :=
  getCell_setCell_self _ _ _

theorem getCell_createNew_eff (nr : Row) (eff exp cur : String) (d : Nat)
    (h1 : eff ≠ exp) (h2 : eff ≠ cur) :
    getCell (createNewCustomerRecord nr eff exp cur d) eff =
      some (some (Val.vDate d)) := by
  unfold createNewCustomerRecord
  rw [getCell_setCell_ne _ _ _ _ h2, getCell_setCell_ne _ _ _ _ h1,
    getCell_setCell_self]

theorem getCell_createNew_exp (nr : Row) (eff exp cur : String) (d : Nat)
    (h : exp ≠ cur) :
    getCell (createNewCustomerRecord nr eff exp cur d) exp = some none := by
  unfold createNewCustomerRecord
  rw [getCell_setCell_ne _ _ _ _ h, getCell_setCell_self]

theorem getCell_createNew_cur (nr : Row) (eff exp cur : String) (d : Nat) :
    getCell (createNewCustomerRecord nr eff exp cur d) cur =
      some (some (Val.vBool true)) :=
  getCell_setCell_self _ _ _

theorem getCell_createNew_other (nr : Row) (eff exp cur c : String) (d : Nat)
    (h1 : c ≠ eff) (h2 : c ≠ exp) (h3 : c ≠ cur) :
    getCell (createNewCustomerRecord nr eff exp cur d) c = getCell nr c := by
  unfold createNewCustomerRecord
  rw [getCell_setCell_ne _ _ _ _ h3, getCell_setCell_ne _ _ _ _ h2,
    getCell_setCell_ne _ _ _ _ h1]

/-- C2: when the incoming row's business key matches exactly one current
record `c_0` in the accumulated result (the mask filter returns exactly
`[c_0]`), and the three metadata columns are distinct: if any comparison
column differs, the new row list is the old one with exactly the masked
rows expired (expiration = the process date, is-current = false; every
unmasked row is untouched) plus exactly one appended current record with
effective = the process date, expiration unset, is-current true, and all
other columns taken from the incoming row; if no column differs, the state
is returned unchanged. -/
theorem scdStep_matched_one (bk eff exp cur : String) (cc : List String)
    (d : Nat) (state : DF) (nr c_0 : Row)
    (hfilter : state.rows.filter (maskFor bk cur nr) = [c_0])
    (h1 : eff ≠ exp) (h2 : eff ≠ cur) (h3 : exp ≠ cur) :
    state.rows.countP (maskFor bk cur nr) = 1 ∧
    (hasDataChanged c_0 nr cc = true →
      (scdStep bk eff exp cur cc d state nr).rows =
        state.rows.map
          (fun r => if maskFor bk cur nr r then expireRow exp cur d r else r) ++
          [createNewCustomerRecord nr eff exp cur d]) ∧
    (hasDataChanged c_0 nr cc = false →
      scdStep bk eff exp cur cc d state nr = state) ∧
    (∀ r, maskFor bk cur nr r = false →
      (if maskFor bk cur nr r then expireRow exp cur d r else r) = r) ∧
    getCell (expireRow exp cur d c_0) exp = some (some (Val.vDate d)) ∧
    getCell (expireRow exp cur d c_0) cur = some (some (Val.vBool false)) ∧
    getCell (createNewCustomerRecord nr eff exp cur d) eff =
      some (some (Val.vDate d)) ∧
    getCell (createNewCustomerRecord nr eff exp cur d) exp = some none ∧
    getCell (createNewCustomerRecord nr eff exp cur d) cur =
      some (some (Val.vBool true)) ∧
    (∀ c, c ≠ eff → c ≠ exp → c ≠ cur →
      getCell (createNewCustomerRecord nr eff exp cur d) c = getCell nr c) := by
  unfold maskFor at hfilter
  refine ⟨?_, ?_, ?_, ?_, getCell_expireRow_exp exp cur d c_0 h3,
    getCell_expireRow_cur exp cur d c_0,
    getCell_createNew_eff nr eff exp cur d h1 h2,
    getCell_createNew_exp nr eff exp cur d h3,
    getCell_createNew_cur nr eff exp cur d,
    fun c hc1 hc2 hc3 => getCell_createNew_other nr eff exp cur c d hc1 hc2 hc3⟩
  · unfold maskFor
    rw [List.countP_eq_length_filter, hfilter]
    rfl
  · intro hch
    simp only [scdStep]
    rw [hfilter]
    dsimp only
    rw [if_pos hch]
    rfl
  · intro hch
    simp only [scdStep]
    rw [hfilter]
    dsimp only
    rw [if_neg (by simp [hch])]
  · intro r hr
    unfold maskFor at hr
    unfold maskFor
    rw [if_neg (by simp [hr])]

/-- Example current record (spec change-detection example): id 1, city NYC. -/
def exCurrentNYC : Row :=
  [("id", some (Val.vInt 1)), ("city", some (Val.vStr "NYC")),
   ("eff", some (Val.vDate 1)), ("exp", none), ("cur", some (Val.vBool true))]

/-- Example incoming row: id 1, city LA. -/
def exIncomingLA : Row :=
  [("id", some (Val.vInt 1)), ("city", some (Val.vStr "LA"))]

/-- Example accumulated state holding only the NYC record. -/
def exStateC2 : DF :=
  ⟨["id", "city", "eff", "exp", "cur"], [exCurrentNYC]⟩

/-- Witness for C2 at the spec example (NYC → LA). -/
theorem scdStep_matched_one_witness :
    exStateC2.rows.countP (maskFor "id" "cur" exIncomingLA) = 1 ∧
    (hasDataChanged exCurrentNYC exIncomingLA ["city"] = true →
      (scdStep "id" "eff" "exp" "cur" ["city"] 9 exStateC2 exIncomingLA).rows =
        exStateC2.rows.map
          (fun r => if maskFor "id" "cur" exIncomingLA r then expireRow "exp" "cur" 9 r
            else r) ++
          [createNewCustomerRecord exIncomingLA "eff" "exp" "cur" 9]) ∧
    (hasDataChanged exCurrentNYC exIncomingLA ["city"] = false →
      scdStep "id" "eff" "exp" "cur" ["city"] 9 exStateC2 exIncomingLA = exStateC2) ∧
    (∀ r, maskFor "id" "cur" exIncomingLA r = false →
      (if maskFor "id" "cur" exIncomingLA r then expireRow "exp" "cur" 9 r else r) = r) ∧
    getCell (expireRow "exp" "cur" 9 exCurrentNYC) "exp" = some (some (Val.vDate 9)) ∧
    getCell (expireRow "exp" "cur" 9 exCurrentNYC) "cur" = some (some (Val.vBool false)) ∧
    getCell (createNewCustomerRecord exIncomingLA "eff" "exp" "cur" 9) "eff" =
      some (some (Val.vDate 9)) ∧
    getCell (createNewCustomerRecord exIncomingLA "eff" "exp" "cur" 9) "exp" =
      some none ∧
    getCell (createNewCustomerRecord exIncomingLA "eff" "exp" "cur" 9) "cur" =
      some (some (Val.vBool true)) ∧
    (∀ c, c ≠ "eff" → c ≠ "exp" → c ≠ "cur" →
      getCell (createNewCustomerRecord exIncomingLA "eff" "exp" "cur" 9) c =
        getCell exIncomingLA c) :=
  scdStep_matched_one "id" "eff" "exp" "cur" ["city"] 9 exStateC2 exIncomingLA
    exCurrentNYC (by decide) (by decide) (by decide) (by decide)

/-! ## The at-most-one-current-per-key invariant -/

/-- Number of rows that are the current record for business key `k`. -/
def curCountFor (bk cur : String) (k : Val) (rows : List Row) : Nat :=
  rows.countP (isCurrentFor bk cur (some k))

theorem isCurrentFor_congr {bk cur : String} (cid : Cell) {r r' : Row}
    (hbk : getCell r' bk = getCell r bk) (hcur : getCell r' cur = getCell r cur) :
    isCurrentFor bk cur cid r' = isCurrentFor bk cur cid r := by
  unfold isCurrentFor
  rw [hbk, hcur]

theorem getCell_expireRow_other (exp cur c : String) (d : Nat) (r : Row)
    (h1 : c ≠ exp) (h2 : c ≠ cur) :
    getCell (expireRow exp cur d r) c = getCell r c := by
  unfold expireRow
  rw [getCell_setCell_ne _ _ _ _ h2, getCell_setCell_ne _ _ _ _ h1]

theorem isCurrentFor_expireRow (bk exp cur : String) (cid : Cell) (d : Nat)
    (r : Row) : isCurrentFor bk cur cid (expireRow exp cur d r) = false := by
  unfold isCurrentFor
  rcases cid with _ | v
  · rfl
  · rcases hg : getCell (expireRow exp cur d r) bk with _ | c
    · rfl
    · rcases c with _ | w
      · rfl
      · rw [getCell_expireRow_cur]
        simp

theorem isCurrentFor_createNew (bk eff exp cur : String) (k : Val) (d : Nat)
    (nr : Row) (h1 : bk ≠ eff) (h2 : bk ≠ exp) (h3 : bk ≠ cur) :
    isCurrentFor bk cur (some k) (createNewCustomerRecord nr eff exp cur d) =
      decide (getCell nr bk = some (some k)) := by
  unfold isCurrentFor
  rw [getCell_createNew_other nr eff exp cur bk d h1 h2 h3, getCell_createNew_cur]
  rcases hg : getCell nr bk with _ | c
  · simp
  · rcases c with _ | w
    · simp
    · by_cases hk : k = w
      · subst hk
        simp
      · have hk' : ¬ w = k := fun hh => hk hh.symm
        simp [hk, hk']

/-- The mask of the loop body equals the current-count predicate when the
incoming key is the non-null value `v`. -/
theorem maskFor_eq_isCurrentFor {bk cur : String} {nr : Row} {v : Val}
    (h : getCell nr bk = some (some v)) :
    maskFor bk cur nr = isCurrentFor bk cur (some v) := by
  unfold maskFor
  rw [h]
  rfl

/-- A row cannot be the current record of two different keys. -/
theorem isCurrentFor_ne_of_isCurrentFor {bk cur : String} {v k : Val} {r : Row}
    (h : isCurrentFor bk cur (some v) r = true) (hne : k ≠ v) :
    isCurrentFor bk cur (some k) r = false := by
  unfold isCurrentFor at h ⊢
  rcases hg : getCell r bk with _ | c
  · rfl
  · rcases c with _ | w
    · rfl
    · rw [hg] at h
      have h' : v = w := by
        have hb : (decide (v = w) &&
            decide (getCell r cur = some (some (Val.vBool true)))) = true := h
        simp only [Bool.and_eq_true, decide_eq_true_eq] at hb
        exact hb.1
      have hkw : ¬ (k = w) := fun hh => hne (hh.trans h'.symm)
      show (decide (k = w) && decide (getCell r cur = some (some (Val.vBool true)))) = false
      simp [hkw]

/-- One loop step preserves the at-most-one-current invariant. -/
theorem scdStep_preserves_uniqCur (bk eff exp cur : String) (cc : List String)
    (d : Nat) (state : DF) (nr : Row)
    (h1 : bk ≠ eff) (h2 : bk ≠ exp) (h3 : bk ≠ cur)
    (hu : ∀ k : Val, curCountFor bk cur k state.rows ≤ 1) :
    ∀ k : Val, curCountFor bk cur k (scdStep bk eff exp cur cc d state nr).rows ≤ 1 := by
  intro k
  simp only [scdStep]
  rcases hfil : state.rows.filter
      (isCurrentFor bk cur ((getCell nr bk).getD none)) with _ | ⟨c1, rest⟩
  · dsimp only
    unfold curCountFor
    rw [List.countP_append]
    by_cases hnew : isCurrentFor bk cur (some k)
        (createNewCustomerRecord nr eff exp cur d) = true
    · rw [isCurrentFor_createNew bk eff exp cur k d nr h1 h2 h3] at hnew
      have hkey : getCell nr bk = some (some k) := of_decide_eq_true hnew
      have hzero : state.rows.countP (isCurrentFor bk cur (some k)) = 0 := by
        rw [List.countP_eq_length_filter]
        have : state.rows.filter (isCurrentFor bk cur (some k)) = [] := by
          rw [← maskFor_eq_isCurrentFor hkey]
          unfold maskFor
          rw [hkey] at hfil ⊢
          exact hfil
        rw [this]
        rfl
      rw [hzero]
      rcases hcc' : isCurrentFor bk cur (some k) (createNewCustomerRecord nr eff exp cur d) <;>
        simp [List.countP_cons, hcc']
    · have hone : List.countP (isCurrentFor bk cur (some k))
          [createNewCustomerRecord nr eff exp cur d] = 0 := by
        simp [List.countP_cons, hnew]
      rw [hone]
      simpa using hu k
  · dsimp only
    by_cases hch : hasDataChanged c1 nr cc = true
    · rw [if_pos hch]
      dsimp only
      unfold curCountFor
      rw [List.countP_append]
      have hc1 : isCurrentFor bk cur ((getCell nr bk).getD none) c1 = true :=
        (List.mem_filter.mp (hfil ▸ List.mem_cons_self c1 rest)).2
      have hcid : ∃ v, getCell nr bk = some (some v) := by
        unfold isCurrentFor at hc1
        rcases hg : (getCell nr bk).getD none with _ | v
        · rw [hg] at hc1
          simp at hc1
        · rcases hgg : getCell nr bk with _ | c
          · rw [hgg] at hg
            simp at hg
          · rw [hgg] at hg
            simp only [Option.getD_some] at hg
            refine ⟨v, ?_⟩
            rw [hg]
      obtain ⟨v, hv⟩ := hcid
      have hexpmap : List.countP (isCurrentFor bk cur (some k))
          (expireCurrentRecord state.rows
            (isCurrentFor bk cur ((getCell nr bk).getD none)) exp cur d) =
          (if k = v then 0 else state.rows.countP (isCurrentFor bk cur (some k))) := by
        unfold expireCurrentRecord
        rw [List.countP_map]
        by_cases hkv : k = v
        · subst hkv
          rw [if_pos rfl]
          apply List.countP_eq_zero.mpr
          intro r _
          simp only [Function.comp_apply]
          by_cases hm : isCurrentFor bk cur ((getCell nr bk).getD none) r = true
          · rw [if_pos hm]
            simp [isCurrentFor_expireRow]
          · rw [if_neg hm]
            exact fun hcontra => hm (by rw [hv]; exact hcontra)
        · rw [if_neg hkv]
          apply List.countP_congr
          intro r _
          simp only [Function.comp_apply]
          by_cases hm : isCurrentFor bk cur ((getCell nr bk).getD none) r = true
          · rw [if_pos hm, isCurrentFor_expireRow]
            have hm' : isCurrentFor bk cur (some v) r = true := by
              rw [hv] at hm
              exact hm
            rw [isCurrentFor_ne_of_isCurrentFor hm' hkv]
          · rw [if_neg hm]
      rw [hexpmap]
      have hnewc : List.countP (isCurrentFor bk cur (some k))
          [createNewCustomerRecord nr eff exp cur d] =
          (if k = v then 1 else 0) := by
        rw [List.countP_cons]
        simp only [List.countP_nil, Nat.zero_add]
        rw [isCurrentFor_createNew bk eff exp cur k d nr h1 h2 h3, hv]
        by_cases hkv : k = v
        · subst hkv
          simp
        · have hne : ¬ (some (some v) = some (some k)) := by
            simp only [Option.some.injEq]
            exact fun hh => hkv hh.symm
          simp [hkv, hne]
      rw [hnewc]
      by_cases hkv : k = v
      · simp [hkv]
      · simp only [hkv, if_false]
        simpa using hu k
    · rw [if_neg (by simp [hch])]
      exact hu k

theorem scdFold_preserves_uniqCur (bk eff exp cur : String) (cc : List String)
    (d : Nat) (h1 : bk ≠ eff) (h2 : bk ≠ exp) (h3 : bk ≠ cur) :
    ∀ (todo : List Row) (state : DF),
    (∀ k : Val, curCountFor bk cur k state.rows ≤ 1) →
    ∀ k : Val, curCountFor bk cur k
      ((todo.foldl (scdStep bk eff exp cur cc d) state).rows) ≤ 1 := by
  intro todo
  induction todo with
  | nil => exact fun state hu k => hu k
  | cons s rest ih =>
    intro state hu k
    simp only [List.foldl_cons]
    exact ih (scdStep bk eff exp cur cc d state s)
      (scdStep_preserves_uniqCur bk eff exp cur cc d state s h1 h2 h3 hu) k

theorem ensureColumn_of_mem {df : DF} {c : String} (v : Cell)
    (h : c ∈ df.cols) : ensureColumn df c v = df := by
  unfold ensureColumn
  rw [if_pos h]

theorem mem_cols_ensureColumn {df : DF} {c' : String} (c : String) (v : Cell)
    (h : c' ∈ df.cols) : c' ∈ (ensureColumn df c v).cols := by
  unfold ensureColumn
  by_cases hmem : c ∈ df.cols
  · rw [if_pos hmem]
    exact h
  · rw [if_neg hmem]
    exact List.mem_append_left _ h

theorem curCountFor_ensureColumn (df : DF) (c : String) (v : Cell)
    (bk cur : String) (k : Val) (hcb : bk ≠ c) (hcc : cur ≠ c) :
    curCountFor bk cur k (ensureColumn df c v).rows =
      curCountFor bk cur k df.rows := by
  unfold ensureColumn
  by_cases hmem : c ∈ df.cols
  · rw [if_pos hmem]
  · rw [if_neg hmem]
    unfold curCountFor
    rw [List.countP_map]
    apply List.countP_congr
    intro r _
    simp only [Function.comp_apply]
    rw [isCurrentFor_congr (some k)
      (getCell_setCell_ne r c bk v hcb) (getCell_setCell_ne r c cur v hcc)]

theorem curCountFor_ensureSCD (E : DF) (bk eff exp cur : String) (d : Nat)
    (k : Val) (hbe : bk ≠ eff) (hbx : bk ≠ exp)
    (hce : cur ≠ eff) (hcx : cur ≠ exp) (hcur : cur ∈ E.cols) :
    curCountFor bk cur k (ensureSCDColumns E eff exp cur d).rows =
      curCountFor bk cur k E.rows := by
  unfold ensureSCDColumns
  have hc2 : cur ∈ (ensureColumn (ensureColumn E eff (some (Val.vDate d))) exp
      none).cols :=
    mem_cols_ensureColumn exp none (mem_cols_ensureColumn eff (some (Val.vDate d)) hcur)
  rw [ensureColumn_of_mem (some (Val.vBool true)) hc2,
    curCountFor_ensureColumn _ exp none bk cur k hbx hcx,
    curCountFor_ensureColumn _ eff (some (Val.vDate d)) bk cur k hbe hce]

/-! ## C9: at most one current record per business key -/

/-- C9: if the existing history has the is-current column and at most one
current row per business key, then for every valid incoming snapshot the
reconciled record set also has at most one current row per business key
(distinct metadata column names assumed, as in the source defaults). -/
theorem apply_scd_unique_current (E S R : DF) (bk eff exp cur : String)
    (d : Nat) (hbe : bk ≠ eff) (hbx : bk ≠ exp) (hbc : bk ≠ cur)
    (hce : cur ≠ eff) (hcx : cur ≠ exp) (hcur : cur ∈ E.cols)
    (hu : ∀ k : Val, curCountFor bk cur k E.rows ≤ 1)
    (hok : apply_scd_type2_logic E S bk eff exp cur d = .ok R) :
    ∀ k : Val, curCountFor bk cur k R.rows ≤ 1 := by
  rw [apply_scd_eq] at hok
  rcases hv : validateSCDInputs E S bk with e | u
  · rw [hv] at hok
    exact absurd hok (by simp)
  · rw [hv] at hok
    simp only [Except.ok.injEq] at hok
    subst hok
    intro k
    simp only [scdResult]
    unfold curCountFor
    rw [(sortBy_perm _ _).countP_eq]
    exact scdFold_preserves_uniqCur bk eff exp cur _ d hbe hbx hbc S.rows
      (ensureSCDColumns E eff exp cur d)
      (fun k' => by
        rw [curCountFor_ensureSCD E bk eff exp cur d k' hbe hbx hce hcx hcur]
        exact hu k') k

/-- Witness for C9 at the NYC → LA example, specialised to key 1. -/
theorem apply_scd_unique_current_witness :
    curCountFor "id" "cur" (Val.vInt 1)
      (DF.mk ["id", "city", "eff", "exp", "cur"]
        [[("id", some (Val.vInt 1)), ("city", some (Val.vStr "NYC")),
          ("eff", some (Val.vDate 1)), ("exp", some (Val.vDate 9)),
          ("cur", some (Val.vBool false))],
         [("id", some (Val.vInt 1)), ("city", some (Val.vStr "LA")),
          ("eff", some (Val.vDate 9)), ("exp", none),
          ("cur", some (Val.vBool true))]]).rows ≤ 1 :=
  apply_scd_unique_current exStateC2 ⟨["id", "city"], [exIncomingLA]⟩
    (DF.mk ["id", "city", "eff", "exp", "cur"]
      [[("id", some (Val.vInt 1)), ("city", some (Val.vStr "NYC")),
        ("eff", some (Val.vDate 1)), ("exp", some (Val.vDate 9)),
        ("cur", some (Val.vBool false))],
       [("id", some (Val.vInt 1)), ("city", some (Val.vStr "LA")),
        ("eff", some (Val.vDate 9)), ("exp", none),
        ("cur", some (Val.vBool true))]])
    "id" "eff" "exp" "cur" 9
    (by decide) (by decide) (by decide) (by decide) (by decide) (by decide)
    (fun _ => List.countP_le_length _) (by rfl) (Val.vInt 1)

/-! ## The settled-snapshot invariant for idempotence -/

/-- After reconciling a snapshot row `s`, the state holds a current record
for the key of `s`, and every current record for that key agrees with `s`
on the comparison columns. -/
def scdInv (bk cur : String) (cc : List String) (rows : List Row) (s : Row) :
    Prop :=
  (∃ r ∈ rows, maskFor bk cur s r = true) ∧
  (∀ r ∈ rows, maskFor bk cur s r = true → hasDataChanged r s cc = false)

theorem scdInv_perm {bk cur : String} {cc : List String} {rows rows' : List Row}
    {s : Row} (hp : List.Perm rows rows') (h : scdInv bk cur cc rows s) :
    scdInv bk cur cc rows' s := by
  obtain ⟨⟨r, hr, hm⟩, hall⟩ := h
  exact ⟨⟨r, hp.mem_iff.mp hr, hm⟩, fun r' hr' hm' => hall r' (hp.mem_iff.mpr hr') hm'⟩

/-- If the state already satisfies the invariant for `s`, the loop body
leaves it untouched (the head of the mask filter is unchanged data). -/
theorem scdStep_noop (bk eff exp cur : String) (cc : List String) (d : Nat)
    (state : DF) (s : Row) (hinv : scdInv bk cur cc state.rows s) :
    scdStep bk eff exp cur cc d state s = state := by
  obtain ⟨⟨r, hr, hm⟩, hall⟩ := hinv
  unfold maskFor at hm hall
  simp only [scdStep]
  rcases hfil : state.rows.filter
      (isCurrentFor bk cur ((getCell s bk).getD none)) with _ | ⟨c1, rest⟩
  · exfalso
    have : r ∈ state.rows.filter
        (isCurrentFor bk cur ((getCell s bk).getD none)) :=
      List.mem_filter.mpr ⟨hr, hm⟩
    rw [hfil] at this
    exact List.not_mem_nil r this
  · have hc1 : c1 ∈ state.rows.filter
        (isCurrentFor bk cur ((getCell s bk).getD none)) := by
      rw [hfil]
      exact List.mem_cons_self c1 rest
    obtain ⟨hc1mem, hc1mask⟩ := List.mem_filter.mp hc1
    dsimp only
    rw [if_neg (by simp [hall c1 hc1mem hc1mask])]

theorem hasDataChanged_of_eq_cells {r s : Row} {cc : List String}
    (h : ∀ c ∈ cc, getCell r c = getCell s c) :
    hasDataChanged r s cc = false := by
  unfold hasDataChanged
  rw [List.any_eq_false]
  intro c hc
  rw [h c hc]
  rcases getCell s c with _ | cv
  · simp
  · rcases cv with _ | a
    · simp
    · simp

theorem hasDataChanged_createNew (s : Row) (eff exp cur : String)
    (cc : List String) (d : Nat)
    (hcc : ∀ c ∈ cc, c ≠ eff ∧ c ≠ exp ∧ c ≠ cur) :
    hasDataChanged (createNewCustomerRecord s eff exp cur d) s cc = false :=
  hasDataChanged_of_eq_cells (fun c hc =>
    getCell_createNew_other s eff exp cur c d (hcc c hc).1 (hcc c hc).2.1
      (hcc c hc).2.2)

theorem maskFor_createNew_self {bk : String} (eff exp cur : String) {s : Row}
    {v : Val} (d : Nat) (hv : getCell s bk = some (some v))
    (h1 : bk ≠ eff) (h2 : bk ≠ exp) (h3 : bk ≠ cur) :
    maskFor bk cur s (createNewCustomerRecord s eff exp cur d) = true := by
  rw [maskFor_eq_isCurrentFor hv,
    isCurrentFor_createNew bk eff exp cur v d s h1 h2 h3]
  simp [hv]

theorem maskFor_createNew_other {bk : String} (eff exp cur : String)
    {s s₀ : Row} {v v₀ : Val} (d : Nat)
    (hv : getCell s bk = some (some v)) (hv₀ : getCell s₀ bk = some (some v₀))
    (hne : v₀ ≠ v) (h1 : bk ≠ eff) (h2 : bk ≠ exp) (h3 : bk ≠ cur) :
    maskFor bk cur s₀ (createNewCustomerRecord s eff exp cur d) = false := by
  rw [maskFor_eq_isCurrentFor hv₀,
    isCurrentFor_createNew bk eff exp cur v₀ d s h1 h2 h3]
  simp only [hv, decide_eq_false_iff_not]
  intro hh
  injection hh with hh1
  injection hh1 with hh2
  exact hne hh2.symm

/-- A freshly processed row satisfies the invariant in the new state. -/
theorem scdStep_establishes (bk eff exp cur : String) (cc : List String)
    (d : Nat) (state : DF) (s : Row) {v : Val}
    (hv : getCell s bk = some (some v))
    (h1 : bk ≠ eff) (h2 : bk ≠ exp) (h3 : bk ≠ cur)
    (hcc : ∀ c ∈ cc, c ≠ eff ∧ c ≠ exp ∧ c ≠ cur)
    (hu : ∀ k : Val, curCountFor bk cur k state.rows ≤ 1) :
    scdInv bk cur cc (scdStep bk eff exp cur cc d state s).rows s := by
  simp only [scdStep]
  rcases hfil : state.rows.filter
      (isCurrentFor bk cur ((getCell s bk).getD none)) with _ | ⟨c1, rest⟩
  · dsimp only
    constructor
    · exact ⟨createNewCustomerRecord s eff exp cur d,
        List.mem_append_right _ (List.mem_singleton.mpr rfl),
        maskFor_createNew_self eff exp cur d hv h1 h2 h3⟩
    · intro r hr hmask
      rcases List.mem_append.mp hr with hrold | hrnew
      · exfalso
        have : r ∈ state.rows.filter
            (isCurrentFor bk cur ((getCell s bk).getD none)) :=
          List.mem_filter.mpr ⟨hrold, by
            unfold maskFor at hmask
            exact hmask⟩
        rw [hfil] at this
        exact List.not_mem_nil r this
      · rw [List.mem_singleton.mp hrnew]
        exact hasDataChanged_createNew s eff exp cur cc d hcc
  · dsimp only
    by_cases hch : hasDataChanged c1 s cc = true
    · rw [if_pos hch]
      dsimp only
      constructor
      · exact ⟨createNewCustomerRecord s eff exp cur d,
          List.mem_append_right _ (List.mem_singleton.mpr rfl),
          maskFor_createNew_self eff exp cur d hv h1 h2 h3⟩
      · intro r hr hmask
        rcases List.mem_append.mp hr with hrmap | hrnew
        · exfalso
          obtain ⟨r0, -, hr0eq⟩ := List.mem_map.mp hrmap
          by_cases hm0 : isCurrentFor bk cur ((getCell s bk).getD none) r0 = true
          · rw [if_pos hm0] at hr0eq
            rw [← hr0eq, maskFor_eq_isCurrentFor hv] at hmask
            rw [isCurrentFor_expireRow] at hmask
            exact Bool.false_ne_true hmask
          · rw [if_neg hm0] at hr0eq
            rw [← hr0eq] at hmask
            unfold maskFor at hmask
            exact hm0 hmask
        · rw [List.mem_singleton.mp hrnew]
          exact hasDataChanged_createNew s eff exp cur cc d hcc
    · rw [if_neg (by simp [hch])]
      have hc1 : c1 ∈ state.rows.filter
          (isCurrentFor bk cur ((getCell s bk).getD none)) := by
        rw [hfil]
        exact List.mem_cons_self c1 rest
      obtain ⟨hc1mem, hc1mask⟩ := List.mem_filter.mp hc1
      have hcount : state.rows.countP
          (isCurrentFor bk cur ((getCell s bk).getD none)) ≤ 1 := by
        have := hu v
        unfold curCountFor at this
        rw [hv]
        exact this
      have hrest : rest = [] := by
        have hlen : (state.rows.filter
            (isCurrentFor bk cur ((getCell s bk).getD none))).length ≤ 1 := by
          rw [← List.countP_eq_length_filter]
          exact hcount
        rw [hfil] at hlen
        simp only [List.length_cons] at hlen
        exact List.length_eq_zero.mp (by omega)
      constructor
      · exact ⟨c1, hc1mem, by
          unfold maskFor
          exact hc1mask⟩
      · intro r hr hmask
        have : r ∈ state.rows.filter
            (isCurrentFor bk cur ((getCell s bk).getD none)) :=
          List.mem_filter.mpr ⟨hr, by
            unfold maskFor at hmask
            exact hmask⟩
        rw [hfil, hrest] at this
        rw [List.mem_singleton.mp this]
        exact Bool.not_eq_true _ ▸ (by simpa using hch)

/-- Processing a row with a different (non-null) business key preserves the
invariant of an already settled row. -/
theorem scdStep_preserves_inv_other (bk eff exp cur : String) (cc : List String)
    (d : Nat) (state : DF) (s s₀ : Row) {v v₀ : Val}
    (hv : getCell s bk = some (some v)) (hv₀ : getCell s₀ bk = some (some v₀))
    (hne : v₀ ≠ v) (h1 : bk ≠ eff) (h2 : bk ≠ exp) (h3 : bk ≠ cur)
    (hinv : scdInv bk cur cc state.rows s₀) :
    scdInv bk cur cc (scdStep bk eff exp cur cc d state s).rows s₀ := by
  obtain ⟨⟨r₀, hr₀, hm₀⟩, hall⟩ := hinv
  have hm₀' : isCurrentFor bk cur (some v₀) r₀ = true := by
    rw [maskFor_eq_isCurrentFor hv₀] at hm₀
    exact hm₀
  simp only [scdStep]
  rcases hfil : state.rows.filter
      (isCurrentFor bk cur ((getCell s bk).getD none)) with _ | ⟨c1, rest⟩
  · dsimp only
    constructor
    · exact ⟨r₀, List.mem_append_left _ hr₀, hm₀⟩
    · intro r hr hmask
      rcases List.mem_append.mp hr with hrold | hrnew
      · exact hall r hrold hmask
      · exfalso
        rw [List.mem_singleton.mp hrnew] at hmask
        rw [maskFor_createNew_other eff exp cur d hv hv₀ hne h1 h2 h3] at hmask
        exact Bool.false_ne_true hmask
  · dsimp only
    by_cases hch : hasDataChanged c1 s cc = true
    · rw [if_pos hch]
      dsimp only
      have hnotmask : isCurrentFor bk cur ((getCell s bk).getD none) r₀ = false := by
        rw [hv]
        exact isCurrentFor_ne_of_isCurrentFor hm₀' (fun hh => hne hh.symm)
      constructor
      · refine ⟨r₀, List.mem_append_left _ ?_, hm₀⟩
        unfold expireCurrentRecord
        refine List.mem_map.mpr ⟨r₀, hr₀, ?_⟩
        rw [if_neg (by simp [hnotmask])]
      · intro r hr hmask
        rcases List.mem_append.mp hr with hrmap | hrnew
        · obtain ⟨r1, hr1, hr1eq⟩ := List.mem_map.mp hrmap
          by_cases hm1 : isCurrentFor bk cur ((getCell s bk).getD none) r1 = true
          · exfalso
            rw [if_pos hm1] at hr1eq
            rw [← hr1eq, maskFor_eq_isCurrentFor hv₀, isCurrentFor_expireRow]
              at hmask
            exact Bool.false_ne_true hmask
          · rw [if_neg hm1] at hr1eq
            rw [← hr1eq] at hmask ⊢
            exact hall r1 hr1 hmask
        · exfalso
          rw [List.mem_singleton.mp hrnew] at hmask
          rw [maskFor_createNew_other eff exp cur d hv hv₀ hne h1 h2 h3] at hmask
          exact Bool.false_ne_true hmask
    · rw [if_neg (by simp [hch])]
      exact ⟨⟨r₀, hr₀, hm₀⟩, hall⟩

/-- The invariant of a settled row survives processing any list of rows
whose (non-null) keys all differ from its key. -/
theorem scdFold_preserves_inv (bk eff exp cur : String) (cc : List String)
    (d : Nat) (h1 : bk ≠ eff) (h2 : bk ≠ exp) (h3 : bk ≠ cur) :
    ∀ (todo : List Row) (state : DF) (s₀ : Row) (v₀ : Val),
    getCell s₀ bk = some (some v₀) →
    (∀ s ∈ todo, ∃ v, getCell s bk = some (some v) ∧ v₀ ≠ v) →
    scdInv bk cur cc state.rows s₀ →
    scdInv bk cur cc ((todo.foldl (scdStep bk eff exp cur cc d) state).rows) s₀ := by
  intro todo
  induction todo with
  | nil => exact fun state s₀ v₀ _ _ hinv => hinv
  | cons s rest ih =>
    intro state s₀ v₀ hv₀ hks hinv
    simp only [List.foldl_cons]
    obtain ⟨v, hv, hvne⟩ := hks s (List.mem_cons_self s rest)
    exact ih (scdStep bk eff exp cur cc d state s) s₀ v₀ hv₀
      (fun s' hs' => hks s' (List.mem_cons_of_mem s hs'))
      (scdStep_preserves_inv_other bk eff exp cur cc d state s s₀ hv hv₀ hvne
        h1 h2 h3 hinv)

/-- After the reconcile loop over a duplicate-free, null-free snapshot, the
resulting record set satisfies the invariant for every snapshot row. -/
theorem scdFold_establishes_all (bk eff exp cur : String) (cc : List String)
    (d : Nat) (h1 : bk ≠ eff) (h2 : bk ≠ exp) (h3 : bk ≠ cur)
    (hcc : ∀ c ∈ cc, c ≠ eff ∧ c ≠ exp ∧ c ≠ cur) :
    ∀ (todo : List Row) (state : DF),
    (∀ k : Val, curCountFor bk cur k state.rows ≤ 1) →
    (∀ s ∈ todo, ∃ v, getCell s bk = some (some v)) →
    (todo.map (fun s => (getCell s bk).getD none)).Nodup →
    ∀ s ∈ todo,
      scdInv bk cur cc ((todo.foldl (scdStep bk eff exp cur cc d) state).rows) s := by
  intro todo
  induction todo with
  | nil => exact fun state _ _ _ s hs => absurd hs (List.not_mem_nil s)
  | cons s rest ih =>
    intro state hu hnn hnd s' hs'
    simp only [List.foldl_cons]
    obtain ⟨v, hv⟩ := hnn s (List.mem_cons_self s rest)
    have hu1 : ∀ k : Val,
        curCountFor bk cur k (scdStep bk eff exp cur cc d state s).rows ≤ 1 :=
      scdStep_preserves_uniqCur bk eff exp cur cc d state s h1 h2 h3 hu
    have hndrest : (rest.map (fun r => (getCell r bk).getD none)).Nodup :=
      (List.nodup_cons.mp hnd).2
    have hheadnot : (getCell s bk).getD none ∉
        rest.map (fun r => (getCell r bk).getD none) :=
      (List.nodup_cons.mp hnd).1
    rcases List.mem_cons.mp hs' with rfl | hs'rest
    · exact scdFold_preserves_inv bk eff exp cur cc d h1 h2 h3 rest
        (scdStep bk eff exp cur cc d state s') s' v hv
        (fun s'' hs'' => by
          obtain ⟨w, hw⟩ := hnn s'' (List.mem_cons_of_mem s' hs'')
          refine ⟨w, hw, fun hvw => ?_⟩
          apply hheadnot
          refine List.mem_map.mpr ⟨s'', hs'', ?_⟩
          rw [hw, hv]
          simp [hvw])
        (scdStep_establishes bk eff exp cur cc d state s' hv h1 h2 h3 hcc hu)
    · exact ih (scdStep bk eff exp cur cc d state s) hu1
        (fun s'' hs'' => hnn s'' (List.mem_cons_of_mem s hs'')) hndrest s' hs'rest

/-- A loop over rows that all satisfy the invariant does nothing. -/
theorem scdFold_noop (bk eff exp cur : String) (cc : List String) (d : Nat) :
    ∀ (todo : List Row) (state : DF),
    (∀ s ∈ todo, scdInv bk cur cc state.rows s) →
    todo.foldl (scdStep bk eff exp cur cc d) state = state := by
  intro todo
  induction todo with
  | nil => exact fun state _ => rfl
  | cons s rest ih =>
    intro state hall
    simp only [List.foldl_cons]
    rw [scdStep_noop bk eff exp cur cc d state s (hall s (List.mem_cons_self s rest))]
    exact ih state (fun s' hs' => hall s' (List.mem_cons_of_mem s hs'))

theorem mem_cols_scdStep {state : DF} {c : String} (bk eff exp cur : String)
    (cc : List String) (d : Nat) (nr : Row) (h : c ∈ state.cols) :
    c ∈ (scdStep bk eff exp cur cc d state nr).cols := by
  simp only [scdStep]
  rcases state.rows.filter (isCurrentFor bk cur ((getCell nr bk).getD none)) with
    _ | ⟨c1, rest⟩
  · exact List.mem_append_left _ h
  · dsimp only
    by_cases hch : hasDataChanged c1 nr cc = true
    · rw [if_pos hch]
      exact List.mem_append_left _ h
    · rw [if_neg hch]
      exact h

theorem mem_cols_scdFold {c : String} (bk eff exp cur : String)
    (cc : List String) (d : Nat) :
    ∀ (todo : List Row) (state : DF), c ∈ state.cols →
    c ∈ ((todo.foldl (scdStep bk eff exp cur cc d) state).cols) := by
  intro todo
  induction todo with
  | nil => exact fun state h => h
  | cons s rest ih =>
    intro state h
    simp only [List.foldl_cons]
    exact ih _ (mem_cols_scdStep bk eff exp cur cc d s h)

theorem mem_cols_ensureColumn_self (df : DF) (c : String) (v : Cell) :
    c ∈ (ensureColumn df c v).cols := by
  unfold ensureColumn
  by_cases hmem : c ∈ df.cols
  · rw [if_pos hmem]
    exact hmem
  · rw [if_neg hmem]
    exact List.mem_append_right _ (List.mem_singleton.mpr rfl)

theorem ensureSCDColumns_of_mem (df : DF) (eff exp cur : String) (d : Nat)
    (he : eff ∈ df.cols) (hx : exp ∈ df.cols) (hc : cur ∈ df.cols) :
    ensureSCDColumns df eff exp cur d = df := by
  unfold ensureSCDColumns
  rw [ensureColumn_of_mem (some (Val.vDate d)) he, ensureColumn_of_mem none hx,
    ensureColumn_of_mem (some (Val.vBool true)) hc]

theorem mem_cols_ensureSCD_eff (df : DF) (eff exp cur : String) (d : Nat) :
    eff ∈ (ensureSCDColumns df eff exp cur d).cols :=
  mem_cols_ensureColumn cur (some (Val.vBool true))
    (mem_cols_ensureColumn exp none (mem_cols_ensureColumn_self df eff _))

theorem mem_cols_ensureSCD_exp (df : DF) (eff exp cur : String) (d : Nat) :
    exp ∈ (ensureSCDColumns df eff exp cur d).cols :=
  mem_cols_ensureColumn cur (some (Val.vBool true))
    (mem_cols_ensureColumn_self _ exp none)

theorem mem_cols_ensureSCD_cur (df : DF) (eff exp cur : String) (d : Nat) :
    cur ∈ (ensureSCDColumns df eff exp cur d).cols :=
  mem_cols_ensureColumn_self _ cur _

theorem validateSCDInputs_ok_nonnull {E S : DF} {bk : String} {u : Unit}
    (hv : validateSCDInputs E S bk = .ok u) :
    ∀ s ∈ S.rows, ∃ w, getCell s bk = some (some w) := by
  unfold validateSCDInputs at hv
  by_cases hA : bk ∉ S.cols
  · rw [if_pos hA] at hv
    exact absurd hv (by simp)
  · rw [if_neg hA] at hv
    by_cases hB : ¬ E.isEmptyFrame = true ∧ bk ∉ E.cols
    · rw [if_pos hB] at hv
      exact absurd hv (by simp)
    · rw [if_neg hB] at hv
      by_cases hC : S.rows.any (fun r => isNullCell (getCell r bk)) = true
      · rw [if_pos hC] at hv
        exact absurd hv (by simp)
      · intro s hs
        have hfalse : isNullCell (getCell s bk) = false := by
          rcases h' : isNullCell (getCell s bk)
          · rfl
          · exact absurd (List.any_eq_true.mpr ⟨s, hs, h'⟩) hC
        unfold isNullCell at hfalse
        rcases hg : getCell s bk with _ | c
        · rw [hg] at hfalse
          simp at hfalse
        · rcases c with _ | w
          · rw [hg] at hfalse
            simp at hfalse
          · exact ⟨w, rfl⟩

/-- Core of the idempotence claim, on the pure computation. -/
theorem scdResult_second_run (E S : DF) (bk eff exp cur : String) (d d2 : Nat)
    (hbe : bk ≠ eff) (hbx : bk ≠ exp) (hbc : bk ≠ cur)
    (hce : cur ≠ eff) (hcx : cur ≠ exp) (hcur : cur ∈ E.cols)
    (hu : ∀ k : Val, curCountFor bk cur k E.rows ≤ 1)
    (hnd : (S.rows.map (fun s => (getCell s bk).getD none)).Nodup)
    (hnn : ∀ s ∈ S.rows, ∃ v, getCell s bk = some (some v)) :
    List.Perm
      (scdResult (scdResult E S bk eff exp cur d) S bk eff exp cur d2).rows
      (scdResult E S bk eff exp cur d).rows := by
  have hcc : ∀ c ∈ S.cols.filter (fun c => decide (c ∉ [bk, eff, exp, cur])),
      c ≠ eff ∧ c ≠ exp ∧ c ≠ cur := by
    intro c hc
    have h' := of_decide_eq_true (List.mem_filter.mp hc).2
    simp only [List.mem_cons, not_or] at h'
    exact ⟨h'.2.1, h'.2.2.1, h'.2.2.2.1⟩
  have hu0 : ∀ k : Val, curCountFor bk cur k
      (ensureSCDColumns E eff exp cur d).rows ≤ 1 := fun k => by
    rw [curCountFor_ensureSCD E bk eff exp cur d k hbe hbx hce hcx hcur]
    exact hu k
  have hinvF := scdFold_establishes_all bk eff exp cur
    (S.cols.filter (fun c => decide (c ∉ [bk, eff, exp, cur]))) d
    hbe hbx hbc hcc S.rows (ensureSCDColumns E eff exp cur d) hu0 hnn hnd
  simp only [scdResult]
  have hens : ensureSCDColumns
      (DF.mk
        ((S.rows.foldl (scdStep bk eff exp cur
          (S.cols.filter (fun c => decide (c ∉ [bk, eff, exp, cur]))) d)
          (ensureSCDColumns E eff exp cur d)).cols)
        (sortBy (rowLe bk eff)
          ((S.rows.foldl (scdStep bk eff exp cur
            (S.cols.filter (fun c => decide (c ∉ [bk, eff, exp, cur]))) d)
            (ensureSCDColumns E eff exp cur d)).rows)))
      eff exp cur d2 =
      DF.mk
        ((S.rows.foldl (scdStep bk eff exp cur
          (S.cols.filter (fun c => decide (c ∉ [bk, eff, exp, cur]))) d)
          (ensureSCDColumns E eff exp cur d)).cols)
        (sortBy (rowLe bk eff)
          ((S.rows.foldl (scdStep bk eff exp cur
            (S.cols.filter (fun c => decide (c ∉ [bk, eff, exp, cur]))) d)
            (ensureSCDColumns E eff exp cur d)).rows)) := by
    apply ensureSCDColumns_of_mem
    · exact mem_cols_scdFold bk eff exp cur _ d S.rows _
        (mem_cols_ensureSCD_eff E eff exp cur d)
    · exact mem_cols_scdFold bk eff exp cur _ d S.rows _
        (mem_cols_ensureSCD_exp E eff exp cur d)
    · exact mem_cols_scdFold bk eff exp cur _ d S.rows _
        (mem_cols_ensureSCD_cur E eff exp cur d)
  rw [hens]
  have hfold2 : S.rows.foldl (scdStep bk eff exp cur
      (S.cols.filter (fun c => decide (c ∉ [bk, eff, exp, cur]))) d2)
      (DF.mk
        ((S.rows.foldl (scdStep bk eff exp cur
          (S.cols.filter (fun c => decide (c ∉ [bk, eff, exp, cur]))) d)
          (ensureSCDColumns E eff exp cur d)).cols)
        (sortBy (rowLe bk eff)
          ((S.rows.foldl (scdStep bk eff exp cur
            (S.cols.filter (fun c => decide (c ∉ [bk, eff, exp, cur]))) d)
            (ensureSCDColumns E eff exp cur d)).rows))) =
      DF.mk
        ((S.rows.foldl (scdStep bk eff exp cur
          (S.cols.filter (fun c => decide (c ∉ [bk, eff, exp, cur]))) d)
          (ensureSCDColumns E eff exp cur d)).cols)
        (sortBy (rowLe bk eff)
          ((S.rows.foldl (scdStep bk eff exp cur
            (S.cols.filter (fun c => decide (c ∉ [bk, eff, exp, cur]))) d)
            (ensureSCDColumns E eff exp cur d)).rows)) := by
    apply scdFold_noop
    intro s hs
    exact scdInv_perm (sortBy_perm (rowLe bk eff) _).symm (hinvF s hs)
  rw [hfold2]
  exact sortBy_perm (rowLe bk eff) _

/-! ## C7: second run with the same snapshot -/

/-- Existing history with two is-current rows for key 1 (city N, later
effective date, first in frame order). -/
def exDupA : Row :=
  [("id", some (Val.vInt 1)), ("city", some (Val.vStr "N")),
   ("eff", some (Val.vDate 2)), ("exp", none), ("cur", some (Val.vBool true))]

/-- Second is-current row for key 1 (city L, earlier effective date). -/
def exDupB : Row :=
  [("id", some (Val.vInt 1)), ("city", some (Val.vStr "L")),
   ("eff", some (Val.vDate 1)), ("exp", none), ("cur", some (Val.vBool true))]

/-- An existing history violating the one-current-per-key discipline. -/
def exDupE : DF := ⟨["id", "city", "eff", "exp", "cur"], [exDupA, exDupB]⟩

/-- A duplicate-free incoming snapshot matching the first current row. -/
def exSnap : DF := ⟨["id", "city"], [[("id", some (Val.vInt 1)),
  ("city", some (Val.vStr "N"))]]⟩

/-- C7 counterexample: with an existing history that has two current rows
for one key, the first reconcile is a no-op (it compares against the first
current row, which matches), but the final sort reorders the two current
rows by effective date, so the second reconcile with the identical snapshot
compares against the other row, detects a change, expires rows and appends
a new version: the row count grows from 2 to 3. -/
theorem apply_scd_second_run_changes_rows :
    (apply_scd_type2_logic exDupE exSnap "id" "eff" "exp" "cur" 5).map
        (fun R => R.rows.length) = .ok 2 ∧
    ((apply_scd_type2_logic exDupE exSnap "id" "eff" "exp" "cur" 5).bind
        (fun R => apply_scd_type2_logic R exSnap "id" "eff" "exp" "cur" 6)).map
        (fun R => R.rows.length) = .ok 3 := by
  exact ⟨rfl, rfl⟩

/-- C7 amended: for an existing history whose is-current column marks at
most one row per business key, and a duplicate-free incoming snapshot,
running reconcile a second time on the first result with the identical
snapshot (any process date) neither adds nor expires rows: the second
record set is a permutation of the first (distinct metadata column names
assumed; both runs assumed valid). -/
theorem apply_scd_idempotent (E S R1 R2 : DF) (bk eff exp cur : String)
    (d d2 : Nat)
    (hbe : bk ≠ eff) (hbx : bk ≠ exp) (hbc : bk ≠ cur)
    (hce : cur ≠ eff) (hcx : cur ≠ exp) (hcur : cur ∈ E.cols)
    (hu : ∀ k : Val, curCountFor bk cur k E.rows ≤ 1)
    (hnd : (S.rows.map (fun s => (getCell s bk).getD none)).Nodup)
    (h1 : apply_scd_type2_logic E S bk eff exp cur d = .ok R1)
    (h2 : apply_scd_type2_logic R1 S bk eff exp cur d2 = .ok R2) :
    List.Perm R2.rows R1.rows := by
  rw [apply_scd_eq] at h1 h2
  rcases hv1 : validateSCDInputs E S bk with e | u1
  · rw [hv1] at h1
    exact absurd h1 (by simp)
  · have hnn := validateSCDInputs_ok_nonnull hv1
    rw [hv1] at h1
    simp only [Except.ok.injEq] at h1
    rcases hv2 : validateSCDInputs R1 S bk with e | u2
    · rw [hv2] at h2
      exact absurd h2 (by simp)
    · rw [hv2] at h2
      simp only [Except.ok.injEq] at h2
      subst h2
      subst h1
      exact scdResult_second_run E S bk eff exp cur d d2 hbe hbx hbc hce hcx
        hcur hu hnd hnn

/-- Witness for the amended C7 at the NYC → LA example: the second run
returns the first result unchanged. -/
theorem apply_scd_idempotent_witness :
    List.Perm
      (DF.mk ["id", "city", "eff", "exp", "cur"]
        [[("id", some (Val.vInt 1)), ("city", some (Val.vStr "NYC")),
          ("eff", some (Val.vDate 1)), ("exp", some (Val.vDate 9)),
          ("cur", some (Val.vBool false))],
         [("id", some (Val.vInt 1)), ("city", some (Val.vStr "LA")),
          ("eff", some (Val.vDate 9)), ("exp", none),
          ("cur", some (Val.vBool true))]]).rows
      (DF.mk ["id", "city", "eff", "exp", "cur"]
        [[("id", some (Val.vInt 1)), ("city", some (Val.vStr "NYC")),
          ("eff", some (Val.vDate 1)), ("exp", some (Val.vDate 9)),
          ("cur", some (Val.vBool false))],
         [("id", some (Val.vInt 1)), ("city", some (Val.vStr "LA")),
          ("eff", some (Val.vDate 9)), ("exp", none),
          ("cur", some (Val.vBool true))]]).rows :=
  apply_scd_idempotent exStateC2 ⟨["id", "city"], [exIncomingLA]⟩
    (DF.mk ["id", "city", "eff", "exp", "cur"]
      [[("id", some (Val.vInt 1)), ("city", some (Val.vStr "NYC")),
        ("eff", some (Val.vDate 1)), ("exp", some (Val.vDate 9)),
        ("cur", some (Val.vBool false))],
       [("id", some (Val.vInt 1)), ("city", some (Val.vStr "LA")),
        ("eff", some (Val.vDate 9)), ("exp", none),
        ("cur", some (Val.vBool true))]])
    (DF.mk ["id", "city", "eff", "exp", "cur"]
      [[("id", some (Val.vInt 1)), ("city", some (Val.vStr "NYC")),
        ("eff", some (Val.vDate 1)), ("exp", some (Val.vDate 9)),
        ("cur", some (Val.vBool false))],
       [("id", some (Val.vInt 1)), ("city", some (Val.vStr "LA")),
        ("eff", some (Val.vDate 9)), ("exp", none),
        ("cur", some (Val.vBool true))]])
    "id" "eff" "exp" "cur" 9 11
    (by decide) (by decide) (by decide) (by decide) (by decide) (by decide)
    (fun _ => List.countP_le_length _) (by decide) (by rfl) (by rfl)

end Workshop
